import Mathlib

/-!
Verification development for the bingo-sheet generation core of the
`chotto` launcher (`src/launcher/src/main_launcher.rs`).

The development shallowly embeds the algorithmic core:
  * `count_matching_cells`  — lines 358-364 of `main_launcher.rs`;
  * `get_all_possible_arrangements_of_size_k` — lines 327-356;
  * the per-column diversity sampler loop of `create_random_number_grids`
    — lines 276-305;
  * the grid-assembly loop — lines 307-324;
  * the wall-clock seed derivation — lines 258-261.

The collaborators `Shufflebag`, `Random` and `Grid` come from the external
`cottontail` crate (not part of the sources); they are modelled from the
specification's stated contracts, as marked in their doc comments.
-/

namespace Chotto

/-- Embeds `count_matching_cells` (lines 358-364): the number of index
positions at which the two columns hold equal values; the Rust `zip`
truncates to the shorter length. -/
def count_matching_cells (column existing_column : List Int) : Nat :=
  ((column.zip existing_column).filter fun p => decide (p.1 = p.2)).length

/-- Embeds the rejection test of lines 284-289: the maximum of
`count_matching_cells` of the candidate against every previously accepted
column, with `unwrap_or(0)` on an empty list (`foldr max 0` agrees with
`Iterator::max` on nonempty lists of naturals and yields `0` on `[]`). -/
def max_matching_cells (new_column : List Int) (accepted : List (List Int)) : Nat :=
  (accepted.map fun previous_column =>
    count_matching_cells new_column previous_column).foldr max 0

/-- Failure mode of the arrangement enumerator: the Rust
`assert!(0 < k && k <= elements.len())` at line 331. -/
inductive ArrangementError : Type
  | InvalidArgument : ArrangementError
deriving DecidableEq

/-- Embeds `get_all_possible_arrangements_of_size_k` (lines 327-356).
The Rust function asserts `0 < k && k <= elements.len()` (modelled as the
`InvalidArgument` error), returns all singleton arrangements for `k = 1`,
and otherwise extends every `(k-1)`-arrangement by every pool element not
already contained in it, preserving the enumeration order (outer loop over
the `(k-1)`-arrangements, inner loop over the pool). -/
def get_all_possible_arrangements_of_size_k {α : Type} [DecidableEq α]
    (k : Nat) (elements : List α) : Except ArrangementError (List (List α)) :=
  if 0 < k ∧ k ≤ elements.length then
    match k with
    | 0 => .error .InvalidArgument
    | 1 => .ok (elements.map fun elem => [elem])
    | Nat.succ (Nat.succ m) =>
      match get_all_possible_arrangements_of_size_k (Nat.succ m) elements with
      | .error e => .error e
      | .ok k_minus_one_subsets =>
        .ok (k_minus_one_subsets.flatMap fun subset =>
          (elements.filter fun fixed => decide (fixed ∉ subset)).map
            fun fixed => subset ++ [fixed])
  else
    .error .InvalidArgument

/-- Modelled from the spec: the `Bag` collaborator (`cottontail`'s
`Shufflebag`, not part of the sources) — "a stateful, without-replacement
sampler over a fixed collection; each exhaustion of the collection triggers
an internal reshuffle and restart".  `elems` is the fixed collection (the
Rust code reads `column_bag.elems.len()`); `remaining` holds the elements
not yet drawn in the current pass. -/
structure Shufflebag (α : Type) where
  elems : List α
  remaining : List α
deriving DecidableEq

/-- Modelled from the spec: `Shufflebag::new` starts a fresh pass over the
whole collection. -/
def Shufflebag.new {α : Type} (elements : List α) : Shufflebag α :=
  { elems := elements, remaining := elements }

/-- Modelled from the spec: one draw from the bag.  The pseudorandom source
supplies the draw index `r`; the drawn element is removed from the current
pass, and an exhausted pass is refilled (reshuffled) from the fixed
collection before drawing.  Drawing from a bag over an empty collection is
impossible (`none`). -/
def Shufflebag.get_next {α : Type} (bag : Shufflebag α) (r : Nat) :
    Option (α × Shufflebag α) :=
  match (if bag.remaining.isEmpty then bag.elems else bag.remaining) with
  | [] => none
  | x :: xs =>
    let i := r % (x :: xs).length
    some ((x :: xs).getD i x,
      { elems := bag.elems, remaining := (x :: xs).eraseIdx i })

/-- Modelled from the spec: `Shufflebag::reset` (line 298) — a fresh
reshuffle, putting every element of the fixed collection back in play. -/
def Shufflebag.reset {α : Type} (bag : Shufflebag α) : Shufflebag α :=
  { elems := bag.elems, remaining := bag.elems }

/-- State of one column's generation loop (lines 276-280): the accepted
arrangements (`columns[col_index]` in the Rust code), the counters
`matching_cells_tolerance` and `failed_pick_count`, and the column's bag. -/
structure SamplerState where
  accepted : List (List Int)
  matching_cells_tolerance : Nat
  failed_pick_count : Nat
  column_bag : Shufflebag (List Int)
deriving DecidableEq

/-- Embeds one iteration of the `while` loop of lines 281-304: draw a
candidate from the bag; if its maximal similarity to the accepted columns
exceeds the tolerance, increment `failed_pick_count` and, once that counter
reaches `column_bag.elems.len()`, escalate the tolerance, zero the counter
and reset the bag; otherwise push the candidate.  The Rust code never
resets `failed_pick_count` on a successful pick. -/
def sampler_step (r : Nat) (st : SamplerState) : SamplerState :=
  match st.column_bag.get_next r with
  | none => st
  | some (new_column, bag1) =>
    if max_matching_cells new_column st.accepted > st.matching_cells_tolerance then
      if st.failed_pick_count + 1 ≥ bag1.elems.length then
        { accepted := st.accepted,
          matching_cells_tolerance := st.matching_cells_tolerance + 1,
          failed_pick_count := 0,
          column_bag := bag1.reset }
      else
        { accepted := st.accepted,
          matching_cells_tolerance := st.matching_cells_tolerance,
          failed_pick_count := st.failed_pick_count + 1,
          column_bag := bag1 }
    else
      { accepted := st.accepted ++ [new_column],
        matching_cells_tolerance := st.matching_cells_tolerance,
        failed_pick_count := st.failed_pick_count,
        column_bag := bag1 }

/-- Embeds the `while columns[col_index].len() < sheet_count` loop of
lines 281-304.  The loop is driven by the pseudorandom stream `rs`
(consumed at the running index `i`); `fuel` is the explicit bound on the
number of iterations the embedding may take (the Rust loop is unbounded;
the termination theorem shows an explicit fuel suffices).  Returns the
final state together with the next unconsumed stream index. -/
def sampler_run (sheet_count : Nat) (rs : Nat → Nat) :
    Nat → Nat → SamplerState → SamplerState × Nat
  | 0, i, st => (st, i)
  | fuel + 1, i, st =>
    if st.accepted.length < sheet_count then
      sampler_run sheet_count rs fuel (i + 1) (sampler_step (rs i) st)
    else
      (st, i)

/-- Initial loop state for one column (lines 276-279 together with the
bag construction of line 272). -/
def sampler_initial (univ : List (List Int)) : SamplerState :=
  { accepted := [],
    matching_cells_tolerance := 0,
    failed_pick_count := 0,
    column_bag := Shufflebag.new univ }

/-- Modelled from the spec and claim C10: `cottontail`'s `Grid<i32>` (not
part of the sources) — a `width × height` matrix of integers; `Grid::new`
initializes every cell with the element type's default value, which is `0`
for `i32`; `set`/`get` address the cell in column `x` of row `y`. -/
structure Grid where
  width : Nat
  height : Nat
  cells : List (List Int)
deriving DecidableEq

/-- Modelled from the spec and claim C10: `Grid::new(w, h)` with every cell
holding the `i32` default `0`. -/
def Grid.new (w h : Nat) : Grid :=
  { width := w, height := h, cells := List.replicate h (List.replicate w 0) }

/-- Modelled from the spec and claim C10: `grid.set(x, y, v)` — replace
the entry in column `x` of row `y`, leaving every other cell unchanged. -/
def Grid.set (g : Grid) (x y : Nat) (v : Int) : Grid :=
  { g with cells := List.modify (fun row => row.set x v) y g.cells }

/-- Modelled from the spec and claim C10: `grid.get(x, y)`. -/
def Grid.get (g : Grid) (x y : Nat) : Int :=
  (g.cells.getD y []).getD x 0

/-- Embeds the grid-assembly loop of lines 307-324: for every sheet index,
start from a fresh `Grid::new(5, 5)`, loop `y` over `0..5` and `x` over
`0..5`, skip the center cell `(2, 2)`, and write
`columns[x][sheet_index][y]` into cell `(x, y)`. -/
def make_grids (columns : List (List (List Int))) (sheet_count : Nat) :
    List Grid :=
  (List.range sheet_count).map fun sheet_index =>
    (List.range 5).foldl
      (fun grid y =>
        (List.range 5).foldl
          (fun grid x =>
            if y = 2 ∧ x = 2 then grid
            else grid.set x y (((columns.getD x []).getD sheet_index []).getD y 0))
          grid)
      (Grid.new 5 5)

/-- Embeds the seed derivation of lines 258-260: the wall-clock nanoseconds
since the Unix epoch, truncated to 64 bits (`as_nanos() & (u64::MAX as
u128)`); the wall-clock reading is the ambient input of the function,
made explicit in the embedding. -/
def chotto_seed (nanos_since_epoch : Nat) : Nat :=
  nanos_since_epoch % 2 ^ 64

/-- Modelled from the spec: the seedable pseudorandom source
(`cottontail`'s `Random`, not part of the sources) — "seedable generator
supplying the shuffle/draw order consumed by the Sampler's underlying
bag" — modelled as the stream of draw indices a 64-bit mixing step
produces from the seed. -/
def chotto_random_stream (seed : Nat) : Nat → Nat :=
  fun i => (seed + (i + 1) * 6364136223846793005) % 2 ^ 64

/-- Embeds the five column pools of lines 264-270: the contiguous ranges
`1..=15`, `16..=30`, `31..=45`, `46..=60`, `61..=75`. -/
def chotto_pools : List (List Int) :=
  [(List.range' 1 15).map fun n => (n : Int),
   (List.range' 16 15).map fun n => (n : Int),
   (List.range' 31 15).map fun n => (n : Int),
   (List.range' 46 15).map fun n => (n : Int),
   (List.range' 61 15).map fun n => (n : Int)]

/-- Embeds line 272: the full arrangement universe of one column
(`get_all_possible_arrangements_of_size_k(5, column)`).  The Rust call
panics on a contract violation; the model returns the empty universe in
that case, which is unreachable for the actual pools. -/
def chotto_universe (pool : List Int) : List (List Int) :=
  match get_all_possible_arrangements_of_size_k 5 pool with
  | .ok arrangements => arrangements
  | .error _ => []

/-- Fuel that provably suffices for one column's loop: `sheet_count`
acceptances plus at most `univ.length` failed picks at each of the
tolerance levels `0, 1, ..., 5`. -/
def chotto_fuel (sheet_count : Nat) (univ : List (List Int)) : Nat :=
  sheet_count + 5 * univ.length + univ.length

/-- One iteration of the `for (col_index, column_bag)` loop of lines
277-305: expand the pool into its arrangement universe, run the column
loop over a fresh bag, append the accepted arrangements, and pass the
pseudorandom stream index on to the next column. -/
def column_step (seed sheet_count : Nat)
    (acc : List (List (List Int)) × Nat) (pool : List Int) :
    List (List (List Int)) × Nat :=
  let univ := chotto_universe pool
  let result := sampler_run sheet_count (chotto_random_stream seed)
    (chotto_fuel sheet_count univ) acc.2 (sampler_initial univ)
  (acc.1 ++ [(result.1).accepted], result.2)

/-- Embeds the per-column generation of lines 263-305 for an explicit
seed: each of the five pools is expanded into its arrangement universe, a
bag is built over it, and the column loops run one after the other with
the single pseudorandom stream threaded through all of them (the Rust code
passes the one `random` value to every `get_next` call). -/
def create_random_columns_seeded (seed : Nat) (sheet_count : Nat) :
    List (List (List Int)) :=
  (chotto_pools.foldl (column_step seed sheet_count) ([], 0)).1

/-- The generation core of lines 262-325 run from an explicit seed:
columns first, then grid assembly. -/
def create_random_number_grids_seeded (seed : Nat) (sheet_count : Nat) :
    List Grid :=
  make_grids (create_random_columns_seeded seed sheet_count) sheet_count

/-- Embeds `create_random_number_grids` (lines 257-325).  The Rust
function reads the wall clock inside its body (lines 258-260) and derives
the pseudorandom seed from it; the embedding makes that ambient reading
the explicit `nanos_since_epoch` input. -/
def create_random_number_grids (nanos_since_epoch : Nat) (sheet_count : Nat) :
    List Grid :=
  create_random_number_grids_seeded (chotto_seed nanos_since_epoch) sheet_count

/-- Decidable per-grid check used by claim C10: the free cell `(2, 2)`
holds the `Grid::new` default `0`, and every other cell of the `5 × 5`
area holds a nonzero value drawn from the pool of its column. -/
def chotto_grid_ok (g : Grid) : Bool :=
  (g.get 2 2 == 0) &&
    ((List.range 5).all fun x =>
      (List.range 5).all fun y =>
        decide (x = 2 ∧ y = 2) ||
          (!(g.get x y == 0) && (chotto_pools.getD x []).contains (g.get x y)))

/-- Ghost-instrumented variant of `SamplerState` for the diversity
invariant: each accepted arrangement is recorded together with the
tolerance in force at the moment it was accepted.  Erasing the recorded
tolerances (`ghost_erase`) recovers the source-derived state. -/
structure GhostState where
  accepted : List (List Int × Nat)
  matching_cells_tolerance : Nat
  failed_pick_count : Nat
  column_bag : Shufflebag (List Int)

/-- Forgets the recorded acceptance tolerances of a ghost state. -/
def ghost_erase (g : GhostState) : SamplerState :=
  { accepted := g.accepted.map Prod.fst,
    matching_cells_tolerance := g.matching_cells_tolerance,
    failed_pick_count := g.failed_pick_count,
    column_bag := g.column_bag }

/-- Ghost-instrumented `sampler_step`: identical control flow and data,
except that an accepted arrangement is paired with the current
tolerance. -/
def ghost_step (r : Nat) (g : GhostState) : GhostState :=
  match g.column_bag.get_next r with
  | none => g
  | some (new_column, bag1) =>
    if max_matching_cells new_column (g.accepted.map Prod.fst)
        > g.matching_cells_tolerance then
      if g.failed_pick_count + 1 ≥ bag1.elems.length then
        { accepted := g.accepted,
          matching_cells_tolerance := g.matching_cells_tolerance + 1,
          failed_pick_count := 0,
          column_bag := bag1.reset }
      else
        { accepted := g.accepted,
          matching_cells_tolerance := g.matching_cells_tolerance,
          failed_pick_count := g.failed_pick_count + 1,
          column_bag := bag1 }
    else
      { accepted := g.accepted ++ [(new_column, g.matching_cells_tolerance)],
        matching_cells_tolerance := g.matching_cells_tolerance,
        failed_pick_count := g.failed_pick_count,
        column_bag := bag1 }

/-- Ghost-instrumented `sampler_run`. -/
def ghost_run (sheet_count : Nat) (rs : Nat → Nat) :
    Nat → Nat → GhostState → GhostState × Nat
  | 0, i, g => (g, i)
  | fuel + 1, i, g =>
    if g.accepted.length < sheet_count then
      ghost_run sheet_count rs fuel (i + 1) (ghost_step (rs i) g)
    else
      (g, i)

/-- Ghost-instrumented `sampler_initial`. -/
def ghost_initial (univ : List (List Int)) : GhostState :=
  { accepted := [],
    matching_cells_tolerance := 0,
    failed_pick_count := 0,
    column_bag := Shufflebag.new univ }

/-- Loop invariant of one column's generation: the bag's fixed collection
is the column's universe, every element still in the bag and every
accepted arrangement comes from the universe, at most `sheet_count`
arrangements have been accepted, the tolerance has not passed the
arrangement length `k`, and the failed-pick counter is strictly below the
universe size. -/
structure SamplerInv (univ : List (List Int)) (k sheet_count : Nat)
    (st : SamplerState) : Prop where
  elems_eq : st.column_bag.elems = univ
  remaining_mem : ∀ a ∈ st.column_bag.remaining, a ∈ univ
  accepted_mem : ∀ a ∈ st.accepted, a ∈ univ
  accepted_le : st.accepted.length ≤ sheet_count
  tol_le : st.matching_cells_tolerance ≤ k
  failed_lt : st.failed_pick_count < univ.length

/-- Termination measure of one column's loop: pending acceptances, plus
remaining tolerance levels weighted by the universe size, plus the
remaining failed picks of the current tolerance level. -/
def sampler_measure (univ : List (List Int)) (k sheet_count : Nat)
    (st : SamplerState) : Nat :=
  (sheet_count - st.accepted.length)
    + (k - st.matching_cells_tolerance) * univ.length
    + (univ.length - st.failed_pick_count)

/-- Strengthened loop invariant used when `sheet_count ≤ |Universe|`: on
top of `SamplerInv`, the tolerance stays strictly below the arrangement
length `k`, the accepted list is duplicate-free, and at the highest
reachable tolerance level `k - 1` two bookkeeping facts hold: every
universe element already drawn in the current pass has been accepted
(at level `k - 1` only duplicates are rejected), and the failed-pick
counter, the accepted count and the undrawn remainder together never
exceed `|Universe| + sheet_count - 1` (each entry into level `k - 1`
starts a fresh full pass with a zeroed counter and fewer than
`sheet_count` accepted arrangements).  These preclude any escalation to
tolerance `k`, hence any accepted duplicate. -/
structure SamplerTightInv (univ : List (List Int)) (k sheet_count : Nat)
    (st : SamplerState) : Prop where
  base : SamplerInv univ k sheet_count st
  tol_lt : st.matching_cells_tolerance < k
  nodup : st.accepted.Nodup
  top_covered : st.matching_cells_tolerance = k - 1 →
    ∀ a ∈ univ, a ∉ st.column_bag.remaining → a ∈ st.accepted
  top_count : st.matching_cells_tolerance = k - 1 →
    st.failed_pick_count + st.accepted.length
        + st.column_bag.remaining.length
      ≤ univ.length + sheet_count - 1

/-! Basic facts about the similarity measure. -/

theorem count_matching_cells_le_left (a b : List Int) :
    count_matching_cells a b ≤ a.length := by
  calc count_matching_cells a b ≤ (a.zip b).length := List.length_filter_le _ _
    _ ≤ a.length := by rw [List.length_zip]; exact Nat.min_le_left _ _

theorem count_matching_cells_comm (a b : List Int) :
    count_matching_cells a b = count_matching_cells b a := by
  unfold count_matching_cells
  rw [← List.zip_swap b a, List.filter_map, List.length_map]
  congr 1
  apply List.filter_congr
  intro p _
  rcases p with ⟨u, v⟩
  simp [Prod.swap, eq_comm]

theorem count_matching_cells_self (a : List Int) :
    count_matching_cells a a = a.length := by
  induction a with
  | nil => rfl
  | cons x xs ih =>
    have h : count_matching_cells (x :: xs) (x :: xs)
        = count_matching_cells xs xs + 1 := by
      simp [count_matching_cells, List.filter_cons]
    rw [h, ih, List.length_cons]

theorem le_foldr_max {l : List Nat} {n : Nat} (h : n ∈ l) : n ≤ l.foldr max 0 := by
  induction l with
  | nil => cases h
  | cons x xs ih =>
    simp only [List.foldr_cons]
    rcases List.mem_cons.mp h with rfl | h2
    · exact le_max_left _ _
    · exact le_trans (ih h2) (le_max_right _ _)

theorem foldr_max_le {l : List Nat} {k : Nat} (h : ∀ n ∈ l, n ≤ k) :
    l.foldr max 0 ≤ k := by
  induction l with
  | nil => exact Nat.zero_le k
  | cons x xs ih =>
    simp only [List.foldr_cons]
    exact max_le (h x (by simp)) (ih fun n hn => h n (by simp [hn]))

theorem count_le_max_matching {c a : List Int} {accepted : List (List Int)}
    (h : a ∈ accepted) :
    count_matching_cells c a ≤ max_matching_cells c accepted :=
  le_foldr_max (List.mem_map_of_mem _ h)

theorem max_matching_le {c : List Int} {accepted : List (List Int)} {k : Nat}
    (h : ∀ a ∈ accepted, count_matching_cells c a ≤ k) :
    max_matching_cells c accepted ≤ k := by
  apply foldr_max_le
  intro n hn
  rcases List.mem_map.mp hn with ⟨a, ha, rfl⟩
  exact h a ha

/-! Facts about the modelled bag. -/

theorem getD_mem_of_lt {α : Type} {l : List α} {n : Nat} (a : α)
    (h : n < l.length) : l.getD n a ∈ l := by
  rw [List.getD_eq_getElem?_getD, List.getElem?_eq_getElem h]
  exact List.getElem_mem h

theorem get_next_total {α : Type} (bag : Shufflebag α) (r : Nat)
    (hne : bag.elems ≠ []) :
    ∃ x bag1, bag.get_next r = some (x, bag1) := by
  rcases hrem : (if bag.remaining.isEmpty then bag.elems else bag.remaining)
    with _ | ⟨x, xs⟩
  · exfalso
    by_cases h : bag.remaining.isEmpty
    · rw [if_pos h] at hrem; exact hne hrem
    · rw [if_neg h] at hrem; simp [hrem] at h
  · refine ⟨(x :: xs).getD (r % (x :: xs).length) x,
      { elems := bag.elems,
        remaining := (x :: xs).eraseIdx (r % (x :: xs).length) }, ?_⟩
    unfold Shufflebag.get_next
    rw [hrem]

theorem get_next_spec {α : Type} {bag : Shufflebag α} {r : Nat} {x : α}
    {bag1 : Shufflebag α} (h : bag.get_next r = some (x, bag1)) :
    bag1.elems = bag.elems
    ∧ (x ∈ bag.elems ∨ x ∈ bag.remaining)
    ∧ (∀ a ∈ bag1.remaining, a ∈ bag.elems ∨ a ∈ bag.remaining) := by
  unfold Shufflebag.get_next at h
  rcases hrem : (if bag.remaining.isEmpty then bag.elems else bag.remaining)
    with _ | ⟨y, ys⟩
  · rw [hrem] at h; cases h
  · rw [hrem] at h
    simp only [Option.some.injEq, Prod.mk.injEq] at h
    obtain ⟨hx, hbag⟩ := h
    have hrem_mem : ∀ a ∈ (y :: ys), a ∈ bag.elems ∨ a ∈ bag.remaining := by
      intro a ha
      by_cases hh : bag.remaining.isEmpty
      · rw [if_pos hh] at hrem; left; rw [← hrem] at ha; exact ha
      · rw [if_neg hh] at hrem; right; rw [← hrem] at ha; exact ha
    refine ⟨by rw [← hbag], ?_, ?_⟩
    · apply hrem_mem
      rw [← hx]
      exact getD_mem_of_lt y (Nat.mod_lt _ (by simp))
    · intro a ha
      rw [← hbag] at ha
      exact hrem_mem a (List.eraseIdx_subset _ _ ha)

/-! Characterization of one sampler step, by the three branches of the
loop body (lines 281-304). -/

theorem sampler_step_accept {r : Nat} {st : SamplerState} {c : List Int}
    {bag1 : Shufflebag (List Int)}
    (hdraw : st.column_bag.get_next r = some (c, bag1))
    (hacc : ¬ max_matching_cells c st.accepted > st.matching_cells_tolerance) :
    sampler_step r st =
      { accepted := st.accepted ++ [c],
        matching_cells_tolerance := st.matching_cells_tolerance,
        failed_pick_count := st.failed_pick_count,
        column_bag := bag1 } := by
  unfold sampler_step
  rw [hdraw]
  simp [hacc]

theorem sampler_step_reject_escalate {r : Nat} {st : SamplerState}
    {c : List Int} {bag1 : Shufflebag (List Int)}
    (hdraw : st.column_bag.get_next r = some (c, bag1))
    (hrej : max_matching_cells c st.accepted > st.matching_cells_tolerance)
    (hth : st.failed_pick_count + 1 ≥ bag1.elems.length) :
    sampler_step r st =
      { accepted := st.accepted,
        matching_cells_tolerance := st.matching_cells_tolerance + 1,
        failed_pick_count := 0,
        column_bag := bag1.reset } := by
  unfold sampler_step
  rw [hdraw]
  simp [hrej, hth]

theorem sampler_step_reject_keep {r : Nat} {st : SamplerState}
    {c : List Int} {bag1 : Shufflebag (List Int)}
    (hdraw : st.column_bag.get_next r = some (c, bag1))
    (hrej : max_matching_cells c st.accepted > st.matching_cells_tolerance)
    (hth : ¬ st.failed_pick_count + 1 ≥ bag1.elems.length) :
    sampler_step r st =
      { accepted := st.accepted,
        matching_cells_tolerance := st.matching_cells_tolerance,
        failed_pick_count := st.failed_pick_count + 1,
        column_bag := bag1 } := by
  unfold sampler_step
  rw [hdraw]
  simp [hrej, hth]

/-! Invariant preservation, measure decrease, and the run-level facts. -/

theorem sampler_step_inv {univ : List (List Int)} {k sheet_count : Nat}
    {st : SamplerState} (hne : univ ≠ []) (hlen : ∀ a ∈ univ, a.length = k)
    (hinv : SamplerInv univ k sheet_count st)
    (hrun : st.accepted.length < sheet_count) (r : Nat) :
    SamplerInv univ k sheet_count (sampler_step r st) := by
  obtain ⟨c, bag1, hdraw⟩ := get_next_total st.column_bag r
    (by rw [hinv.elems_eq]; exact hne)
  obtain ⟨helems, hc, hrem⟩ := get_next_spec hdraw
  have hc_univ : c ∈ univ := by
    rcases hc with h | h
    · rw [← hinv.elems_eq]; exact h
    · exact hinv.remaining_mem c h
  have hbag1_elems : bag1.elems = univ := by rw [helems, hinv.elems_eq]
  have hbag1_rem : ∀ a ∈ bag1.remaining, a ∈ univ := by
    intro a ha
    rcases hrem a ha with h | h
    · rw [← hinv.elems_eq]; exact h
    · exact hinv.remaining_mem a h
  have hUpos : 0 < univ.length := List.length_pos.mpr hne
  by_cases hrej : max_matching_cells c st.accepted > st.matching_cells_tolerance
  · have htolk : st.matching_cells_tolerance < k := by
      have hk : max_matching_cells c st.accepted ≤ k :=
        max_matching_le fun a _ =>
          le_trans (count_matching_cells_le_left c a) (le_of_eq (hlen c hc_univ))
      omega
    by_cases hth : st.failed_pick_count + 1 ≥ bag1.elems.length
    · rw [sampler_step_reject_escalate hdraw hrej hth]
      exact
        { elems_eq := by simp [Shufflebag.reset, hbag1_elems]
          remaining_mem := by
            intro a ha
            simp only [Shufflebag.reset] at ha
            rw [← hbag1_elems]; exact ha
          accepted_mem := hinv.accepted_mem
          accepted_le := hinv.accepted_le
          tol_le := by show st.matching_cells_tolerance + 1 ≤ k; omega
          failed_lt := hUpos }
    · rw [sampler_step_reject_keep hdraw hrej hth]
      exact
        { elems_eq := hbag1_elems
          remaining_mem := hbag1_rem
          accepted_mem := hinv.accepted_mem
          accepted_le := hinv.accepted_le
          tol_le := hinv.tol_le
          failed_lt := by
            show st.failed_pick_count + 1 < univ.length
            rw [hbag1_elems] at hth
            omega }
  · rw [sampler_step_accept hdraw hrej]
    exact
      { elems_eq := hbag1_elems
        remaining_mem := hbag1_rem
        accepted_mem := by
          intro a ha
          rcases List.mem_append.mp ha with h | h
          · exact hinv.accepted_mem a h
          · rw [List.mem_singleton.mp h]; exact hc_univ
        accepted_le := by
          show (st.accepted ++ [c]).length ≤ sheet_count
          simp only [List.length_append, List.length_singleton]
          omega
        tol_le := hinv.tol_le
        failed_lt := hinv.failed_lt }

theorem sampler_step_measure {univ : List (List Int)} {k sheet_count : Nat}
    {st : SamplerState} (hne : univ ≠ []) (hlen : ∀ a ∈ univ, a.length = k)
    (hinv : SamplerInv univ k sheet_count st)
    (hrun : st.accepted.length < sheet_count) (r : Nat) :
    sampler_measure univ k sheet_count (sampler_step r st)
      < sampler_measure univ k sheet_count st := by
  obtain ⟨c, bag1, hdraw⟩ := get_next_total st.column_bag r
    (by rw [hinv.elems_eq]; exact hne)
  obtain ⟨helems, hc, _⟩ := get_next_spec hdraw
  have hc_univ : c ∈ univ := by
    rcases hc with h | h
    · rw [← hinv.elems_eq]; exact h
    · exact hinv.remaining_mem c h
  have hbag1_elems : bag1.elems = univ := by rw [helems, hinv.elems_eq]
  have hfailed := hinv.failed_lt
  by_cases hrej : max_matching_cells c st.accepted > st.matching_cells_tolerance
  · have htolk : st.matching_cells_tolerance < k := by
      have hk : max_matching_cells c st.accepted ≤ k :=
        max_matching_le fun a _ =>
          le_trans (count_matching_cells_le_left c a) (le_of_eq (hlen c hc_univ))
      omega
    by_cases hth : st.failed_pick_count + 1 ≥ bag1.elems.length
    · rw [sampler_step_reject_escalate hdraw hrej hth]
      show (sheet_count - st.accepted.length)
          + (k - (st.matching_cells_tolerance + 1)) * univ.length
          + (univ.length - 0)
        < (sheet_count - st.accepted.length)
          + (k - st.matching_cells_tolerance) * univ.length
          + (univ.length - st.failed_pick_count)
      have hsplit : (k - st.matching_cells_tolerance) * univ.length
          = (k - (st.matching_cells_tolerance + 1)) * univ.length + univ.length := by
        have h1 : k - st.matching_cells_tolerance
            = (k - (st.matching_cells_tolerance + 1)) + 1 := by omega
        rw [h1, Nat.succ_mul]
      rw [hbag1_elems] at hth
      omega
    · rw [sampler_step_reject_keep hdraw hrej hth]
      show (sheet_count - st.accepted.length)
          + (k - st.matching_cells_tolerance) * univ.length
          + (univ.length - (st.failed_pick_count + 1))
        < (sheet_count - st.accepted.length)
          + (k - st.matching_cells_tolerance) * univ.length
          + (univ.length - st.failed_pick_count)
      rw [hbag1_elems] at hth
      omega
  · rw [sampler_step_accept hdraw hrej]
    show (sheet_count - (st.accepted ++ [c]).length)
        + (k - st.matching_cells_tolerance) * univ.length
        + (univ.length - st.failed_pick_count)
      < (sheet_count - st.accepted.length)
        + (k - st.matching_cells_tolerance) * univ.length
        + (univ.length - st.failed_pick_count)
    simp only [List.length_append, List.length_singleton]
    omega

theorem sampler_run_spec {univ : List (List Int)} {k : Nat}
    (hne : univ ≠ []) (hlen : ∀ a ∈ univ, a.length = k)
    (sheet_count : Nat) (rs : Nat → Nat) :
    ∀ fuel i st, SamplerInv univ k sheet_count st →
      sampler_measure univ k sheet_count st ≤ fuel →
      SamplerInv univ k sheet_count ((sampler_run sheet_count rs fuel i st).1)
      ∧ ((sampler_run sheet_count rs fuel i st).1).accepted.length = sheet_count := by
  intro fuel
  induction fuel with
  | zero =>
    intro i st hinv hm
    exfalso
    have h1 := hinv.failed_lt
    simp only [sampler_measure] at hm
    omega
  | succ fuel ih =>
    intro i st hinv hm
    by_cases hrun : st.accepted.length < sheet_count
    · simp only [sampler_run, if_pos hrun]
      refine ih (i + 1) (sampler_step (rs i) st)
        (sampler_step_inv hne hlen hinv hrun (rs i)) ?_
      have := sampler_step_measure hne hlen hinv hrun (rs i)
      omega
    · simp only [sampler_run, if_neg hrun]
      exact ⟨hinv, by have := hinv.accepted_le; omega⟩

theorem sampler_step_tol_mono (r : Nat) (st : SamplerState) :
    st.matching_cells_tolerance ≤ (sampler_step r st).matching_cells_tolerance := by
  unfold sampler_step
  rcases h : st.column_bag.get_next r with _ | ⟨c, bag1⟩
  · exact le_refl _
  · by_cases hrej : max_matching_cells c st.accepted > st.matching_cells_tolerance
    · by_cases hth : st.failed_pick_count + 1 ≥ bag1.elems.length
      · simp [hrej, hth]
      · simp [hrej, hth]
    · simp [hrej]

theorem sampler_run_tol_mono (sheet_count : Nat) (rs : Nat → Nat) :
    ∀ fuel i st, st.matching_cells_tolerance
      ≤ ((sampler_run sheet_count rs fuel i st).1).matching_cells_tolerance := by
  intro fuel
  induction fuel with
  | zero => intro i st; exact le_refl _
  | succ fuel ih =>
    intro i st
    by_cases hrun : st.accepted.length < sheet_count
    · simp only [sampler_run, if_pos hrun]
      exact le_trans (sampler_step_tol_mono (rs i) st) (ih (i + 1) _)
    · simp only [sampler_run, if_neg hrun]
      exact le_refl _

theorem sampler_step_nodup {univ : List (List Int)} {k sheet_count : Nat}
    {st : SamplerState} (hlen : ∀ a ∈ univ, a.length = k)
    (hinv : SamplerInv univ k sheet_count st) (r : Nat)
    (hnd : st.matching_cells_tolerance < k → st.accepted.Nodup) :
    (sampler_step r st).matching_cells_tolerance < k →
      (sampler_step r st).accepted.Nodup := by
  intro htol
  have htol0 : st.matching_cells_tolerance < k :=
    lt_of_le_of_lt (sampler_step_tol_mono r st) htol
  rcases hdraw : st.column_bag.get_next r with _ | ⟨c, bag1⟩
  · unfold sampler_step; rw [hdraw]; exact hnd htol0
  · by_cases hrej : max_matching_cells c st.accepted > st.matching_cells_tolerance
    · by_cases hth : st.failed_pick_count + 1 ≥ bag1.elems.length
      · rw [sampler_step_reject_escalate hdraw hrej hth]; exact hnd htol0
      · rw [sampler_step_reject_keep hdraw hrej hth]; exact hnd htol0
    · rw [sampler_step_accept hdraw hrej]
      have hnotmem : c ∉ st.accepted := by
        intro hcmem
        have hck : c.length = k := hlen c (hinv.accepted_mem c hcmem)
        have hle : count_matching_cells c c ≤ max_matching_cells c st.accepted :=
          count_le_max_matching hcmem
        rw [count_matching_cells_self, hck] at hle
        omega
      show (st.accepted ++ [c]).Nodup
      rw [List.nodup_append]
      refine ⟨hnd htol0, List.nodup_singleton c, ?_⟩
      intro a ha hb
      rw [List.mem_singleton.mp hb] at ha
      exact hnotmem ha

theorem sampler_run_nodup {univ : List (List Int)} {k : Nat}
    (hne : univ ≠ []) (hlen : ∀ a ∈ univ, a.length = k)
    (sheet_count : Nat) (rs : Nat → Nat) :
    ∀ fuel i st, SamplerInv univ k sheet_count st →
      (st.matching_cells_tolerance < k → st.accepted.Nodup) →
      (((sampler_run sheet_count rs fuel i st).1).matching_cells_tolerance < k →
        ((sampler_run sheet_count rs fuel i st).1).accepted.Nodup) := by
  intro fuel
  induction fuel with
  | zero => intro i st _ hnd; exact hnd
  | succ fuel ih =>
    intro i st hinv hnd
    by_cases hrun : st.accepted.length < sheet_count
    · simp only [sampler_run, if_pos hrun]
      exact ih (i + 1) (sampler_step (rs i) st)
        (sampler_step_inv hne hlen hinv hrun (rs i))
        (sampler_step_nodup hlen hinv (rs i) hnd)
    · simp only [sampler_run, if_neg hrun]
      exact hnd

/-! The ghost-instrumented loop is a conservative extension of the
source-derived loop: erasing the recorded tolerances commutes with
stepping and running. -/

theorem ghost_erase_step (r : Nat) (g : GhostState) :
    ghost_erase (ghost_step r g) = sampler_step r (ghost_erase g) := by
  rcases hdraw : g.column_bag.get_next r with _ | ⟨c, bag1⟩
  · unfold ghost_step sampler_step
    rw [show (ghost_erase g).column_bag = g.column_bag from rfl, hdraw]
  · unfold ghost_step sampler_step
    rw [show (ghost_erase g).column_bag = g.column_bag from rfl, hdraw]
    by_cases hrej : max_matching_cells c (g.accepted.map Prod.fst)
        > g.matching_cells_tolerance
    · by_cases hth : g.failed_pick_count + 1 ≥ bag1.elems.length
      · simp [ghost_erase, hrej, hth]
      · simp [ghost_erase, hrej, hth]
    · simp [ghost_erase, hrej]

theorem ghost_erase_run (sheet_count : Nat) (rs : Nat → Nat) :
    ∀ fuel i g, ghost_erase ((ghost_run sheet_count rs fuel i g).1)
      = (sampler_run sheet_count rs fuel i (ghost_erase g)).1 := by
  intro fuel
  induction fuel with
  | zero => intro i g; rfl
  | succ fuel ih =>
    intro i g
    have hlen : (ghost_erase g).accepted.length = g.accepted.length :=
      List.length_map _ _
    by_cases hrun : g.accepted.length < sheet_count
    · have hrun2 : (ghost_erase g).accepted.length < sheet_count := by
        rw [hlen]; exact hrun
      simp only [ghost_run, sampler_run, if_pos hrun, if_pos hrun2]
      rw [ih (i + 1) (ghost_step (rs i) g), ghost_erase_step]
    · have hrun2 : ¬ (ghost_erase g).accepted.length < sheet_count := by
        rw [hlen]; exact hrun
      simp only [ghost_run, sampler_run, if_neg hrun, if_neg hrun2]

/-- Diversity invariant carried by the ghost loop: every already accepted
arrangement is at most as similar to every later-accepted one as the
tolerance recorded with the later one, and every recorded tolerance is at
most the current tolerance. -/
def GhostInv (g : GhostState) : Prop :=
  g.accepted.Pairwise (fun p q => count_matching_cells p.1 q.1 ≤ q.2)
  ∧ ∀ p ∈ g.accepted, p.2 ≤ g.matching_cells_tolerance

theorem ghost_step_inv (r : Nat) (g : GhostState) (h : GhostInv g) :
    GhostInv (ghost_step r g) := by
  obtain ⟨hpair, htol⟩ := h
  rcases hdraw : g.column_bag.get_next r with _ | ⟨c, bag1⟩
  · unfold ghost_step; rw [hdraw]; exact ⟨hpair, htol⟩
  · unfold ghost_step
    rw [hdraw]
    by_cases hrej : max_matching_cells c (g.accepted.map Prod.fst)
        > g.matching_cells_tolerance
    · by_cases hth : g.failed_pick_count + 1 ≥ bag1.elems.length
      · simp only [if_pos hrej, if_pos hth]
        refine ⟨hpair, ?_⟩
        intro p hp
        have := htol p hp
        show p.2 ≤ g.matching_cells_tolerance + 1
        omega
      · simp only [if_pos hrej, if_neg hth]
        exact ⟨hpair, htol⟩
    · simp only [if_neg hrej]
      constructor
      · show (g.accepted ++ [(c, g.matching_cells_tolerance)]).Pairwise _
        rw [List.pairwise_append]
        refine ⟨hpair, List.pairwise_singleton _ _, ?_⟩
        intro p hp q hq
        rw [List.mem_singleton.mp hq]
        show count_matching_cells p.1 c ≤ g.matching_cells_tolerance
        rw [count_matching_cells_comm]
        exact le_trans
          (count_le_max_matching (List.mem_map_of_mem Prod.fst hp))
          (by omega)
      · intro p hp
        rcases List.mem_append.mp hp with hmem | hmem
        · exact htol p hmem
        · rw [List.mem_singleton.mp hmem]

theorem ghost_run_inv (sheet_count : Nat) (rs : Nat → Nat) :
    ∀ fuel i g, GhostInv g →
      GhostInv ((ghost_run sheet_count rs fuel i g).1) := by
  intro fuel
  induction fuel with
  | zero => intro i g h; exact h
  | succ fuel ih =>
    intro i g h
    by_cases hrun : g.accepted.length < sheet_count
    · simp only [ghost_run, if_pos hrun]
      exact ih (i + 1) _ (ghost_step_inv (rs i) g h)
    · simp only [ghost_run, if_neg hrun]
      exact h

/-! Correctness of the arrangement enumerator. -/

theorem length_filter_not_mem {α : Type} [DecidableEq α] {elements s : List α}
    (hnd : elements.Nodup) (hs : s.Nodup) (hsub : ∀ x ∈ s, x ∈ elements) :
    (elements.filter fun e => decide (e ∉ s)).length
      = elements.length - s.length := by
  have hmemlen : (elements.filter fun e => decide (e ∈ s)).length = s.length := by
    have hnd1 : (elements.filter fun e => decide (e ∈ s)).Nodup := hnd.filter _
    have hperm : (elements.filter fun e => decide (e ∈ s)).Perm s := by
      rw [List.perm_ext_iff_of_nodup hnd1 hs]
      intro a
      simp only [List.mem_filter, decide_eq_true_eq]
      exact ⟨fun h => h.2, fun h => ⟨hsub a h, h⟩⟩
    exact hperm.length_eq
  have hsplit : ∀ l : List α, l.length
      = (l.filter fun e => decide (e ∈ s)).length
        + (l.filter fun e => decide (e ∉ s)).length := by
    intro l
    induction l with
    | nil => rfl
    | cons x xs ihl =>
      by_cases h : x ∈ s <;> simp [List.filter_cons, h, ihl] <;> omega
  have := hsplit elements
  omega

theorem arrangements_spec {α : Type} [DecidableEq α] :
    ∀ (k : Nat) (elements : List α), elements.Nodup → 0 < k →
      k ≤ elements.length →
      ∃ l, get_all_possible_arrangements_of_size_k k elements = .ok l
        ∧ l.length = elements.length.descFactorial k
        ∧ l.Nodup
        ∧ ∀ a ∈ l, a.length = k ∧ a.Nodup ∧ ∀ x ∈ a, x ∈ elements := by
  intro k
  induction k with
  | zero => intro elements _ h0 _; omega
  | succ n ih =>
    intro elements hnd hpos hle
    cases n with
    | zero =>
      refine ⟨elements.map fun e => [e], ?_, ?_, ?_, ?_⟩
      · unfold get_all_possible_arrangements_of_size_k
        rw [if_pos ⟨hpos, hle⟩]
      · rw [List.length_map]
        simp [Nat.descFactorial]
      · exact (List.nodup_map_iff fun a b h => by simpa using h).mpr hnd
      · intro a ha
        rcases List.mem_map.mp ha with ⟨e, he, rfl⟩
        exact ⟨rfl, List.nodup_singleton e, by simpa using he⟩
    | succ m =>
      obtain ⟨prev, hprev_eq, hprev_len, hprev_nd, hprev_mem⟩ :=
        ih elements hnd (by omega) (by omega)
      have hvalid : 0 < m + 1 + 1 ∧ m + 1 + 1 ≤ elements.length := ⟨by omega, hle⟩
      have hres : get_all_possible_arrangements_of_size_k (m + 1 + 1) elements
          = .ok (prev.flatMap fun subset =>
              (elements.filter fun fixed => decide (fixed ∉ subset)).map
                fun fixed => subset ++ [fixed]) := by
        show get_all_possible_arrangements_of_size_k
          (Nat.succ (Nat.succ m)) elements = _
        unfold get_all_possible_arrangements_of_size_k
        rw [if_pos hvalid]
        conv_lhs => whnf
        rw [hprev_eq]
      refine ⟨_, hres, ?_, ?_, ?_⟩
      · rw [List.length_flatMap]
        simp only [Function.comp_def, List.length_map]
        have hmapc : (prev.map fun subset =>
            (elements.filter fun fixed => decide (fixed ∉ subset)).length)
            = prev.map fun _ => elements.length - (m + 1) := by
          apply List.map_congr_left
          intro s hs
          obtain ⟨hslen, hsnd, hsmem⟩ := hprev_mem s hs
          rw [length_filter_not_mem hnd hsnd hsmem, hslen]
        rw [hmapc, List.map_const', List.sum_replicate, smul_eq_mul,
          hprev_len, Nat.descFactorial_succ, Nat.mul_comm,
          Nat.descFactorial_succ, Nat.descFactorial_succ]
      · rw [List.nodup_flatMap]
        constructor
        · intro s hs
          apply (List.nodup_map_iff fun a b h => ?_).mpr (hnd.filter _)
          have := List.append_cancel_left h
          simpa using this
        · apply List.Pairwise.imp_of_mem ?_ hprev_nd
          intro s1 s2 hs1 hs2 hne12
          simp only [Function.onFun, List.disjoint_left]
          intro a ha1 ha2
          rcases List.mem_map.mp ha1 with ⟨e1, _, rfl⟩
          rcases List.mem_map.mp ha2 with ⟨e2, _, heq⟩
          have hlens : s2.length = s1.length := by
            rw [(hprev_mem s1 hs1).1, (hprev_mem s2 hs2).1]
          exact hne12 ((List.append_inj heq hlens).1.symm)
      · intro a ha
        rcases List.mem_flatMap.mp ha with ⟨s, hs, hmem⟩
        rcases List.mem_map.mp hmem with ⟨e, he, rfl⟩
        obtain ⟨hslen, hsnd, hsmem⟩ := hprev_mem s hs
        have he2 := List.mem_filter.mp he
        have henotin : e ∉ s := by simpa using he2.2
        refine ⟨by rw [List.length_append, hslen, List.length_singleton], ?_, ?_⟩
        · rw [List.nodup_append]
          refine ⟨hsnd, List.nodup_singleton e, ?_⟩
          intro x hx hx2
          rw [List.mem_singleton.mp hx2] at hx
          exact henotin hx
        · intro x hx
          rcases List.mem_append.mp hx with h | h
          · exact hsmem x h
          · rw [List.mem_singleton.mp h]
            exact he2.1

theorem arrangements_ok {α : Type} [DecidableEq α] :
    ∀ (k : Nat) (elements : List α), 0 < k → k ≤ elements.length →
      ∃ l, get_all_possible_arrangements_of_size_k k elements = .ok l := by
  intro k
  induction k with
  | zero => intro elements h0 _; omega
  | succ n ih =>
    intro elements hpos hle
    cases n with
    | zero =>
      refine ⟨elements.map fun e => [e], ?_⟩
      unfold get_all_possible_arrangements_of_size_k
      rw [if_pos ⟨hpos, hle⟩]
    | succ m =>
      obtain ⟨prev, hprev⟩ := ih elements (by omega) (by omega)
      refine ⟨prev.flatMap fun subset =>
        (elements.filter fun fixed => decide (fixed ∉ subset)).map
          fun fixed => subset ++ [fixed], ?_⟩
      show get_all_possible_arrangements_of_size_k
        (Nat.succ (Nat.succ m)) elements = _
      unfold get_all_possible_arrangements_of_size_k
      rw [if_pos ⟨by omega, hle⟩]
      conv_lhs => whnf
      rw [hprev]

theorem arrangements_error_iff {α : Type} [DecidableEq α]
    (k : Nat) (elements : List α) :
    (get_all_possible_arrangements_of_size_k k elements
        = .error .InvalidArgument)
      ↔ ¬(0 < k ∧ k ≤ elements.length) := by
  constructor
  · intro herr hvalid
    obtain ⟨l, hok⟩ := arrangements_ok k elements hvalid.1 hvalid.2
    rw [hok] at herr
    cases herr
  · intro hinvalid
    unfold get_all_possible_arrangements_of_size_k
    rw [if_neg hinvalid]

/-! Correctness of the grid assembly. -/

theorem make_grids_length (columns : List (List (List Int)))
    (sheet_count : Nat) :
    (make_grids columns sheet_count).length = sheet_count := by
  unfold make_grids
  rw [List.length_map, List.length_range]

theorem make_grids_getD (columns : List (List (List Int)))
    (sheet_count i : Nat) (hi : i < sheet_count) (d : Grid) :
    (make_grids columns sheet_count).getD i d
      = (List.range 5).foldl
          (fun grid y =>
            (List.range 5).foldl
              (fun grid x =>
                if y = 2 ∧ x = 2 then grid
                else grid.set x y (((columns.getD x []).getD i []).getD y 0))
              grid)
          (Grid.new 5 5) := by
  unfold make_grids
  rw [List.getD_eq_getElem?_getD, List.getElem?_map, List.getElem?_range hi,
    Option.map_some', Option.getD_some]

theorem make_grid_cell (columns : List (List (List Int))) (i : Nat)
    (x y : Nat) (hx : x < 5) (hy : y < 5) :
    ((List.range 5).foldl
        (fun grid y =>
          (List.range 5).foldl
            (fun grid x =>
              if y = 2 ∧ x = 2 then grid
              else grid.set x y (((columns.getD x []).getD i []).getD y 0))
            grid)
        (Grid.new 5 5)).get x y
      = if x = 2 ∧ y = 2 then 0
        else ((columns.getD x []).getD i []).getD y 0 := by
  interval_cases x <;> interval_cases y <;> rfl

/-! Facts about the full pipeline instantiated at the actual pools. -/

theorem sampler_initial_inv (univ : List (List Int)) (k sheet_count : Nat)
    (hne : univ ≠ []) :
    SamplerInv univ k sheet_count (sampler_initial univ) :=
  { elems_eq := rfl
    remaining_mem := fun _ ha => ha
    accepted_mem := fun a ha => absurd ha (List.not_mem_nil a)
    accepted_le := Nat.zero_le _
    tol_le := Nat.zero_le _
    failed_lt := List.length_pos.mpr hne }

theorem chotto_universe_spec (pool : List Int) (hnd : pool.Nodup)
    (hlen5 : 5 ≤ pool.length) :
    chotto_universe pool ≠ []
    ∧ ∀ a ∈ chotto_universe pool, a.length = 5 ∧ ∀ x ∈ a, x ∈ pool := by
  obtain ⟨l, hok, hlength, _, hmem⟩ :=
    arrangements_spec 5 pool hnd (by omega) hlen5
  have huniv : chotto_universe pool = l := by
    unfold chotto_universe
    rw [hok]
  rw [huniv]
  constructor
  · intro hnil
    rw [hnil] at hlength
    simp only [List.length_nil] at hlength
    have := Nat.descFactorial_eq_zero_iff_lt.mp hlength.symm
    omega
  · intro a ha
    exact ⟨(hmem a ha).1, (hmem a ha).2.2⟩

theorem column_run_spec (seed sheet_count i0 : Nat) (pool : List Int)
    (hnd : pool.Nodup) (hlen5 : 5 ≤ pool.length) :
    (((sampler_run sheet_count (chotto_random_stream seed)
        (chotto_fuel sheet_count (chotto_universe pool)) i0
        (sampler_initial (chotto_universe pool))).1).accepted).length
      = sheet_count
    ∧ ∀ a ∈ ((sampler_run sheet_count (chotto_random_stream seed)
        (chotto_fuel sheet_count (chotto_universe pool)) i0
        (sampler_initial (chotto_universe pool))).1).accepted,
        a.length = 5 ∧ ∀ x ∈ a, x ∈ pool := by
  obtain ⟨hne, hmem⟩ := chotto_universe_spec pool hnd hlen5
  have hlen : ∀ a ∈ chotto_universe pool, a.length = 5 :=
    fun a ha => (hmem a ha).1
  have hm : sampler_measure (chotto_universe pool) 5 sheet_count
      (sampler_initial (chotto_universe pool))
      ≤ chotto_fuel sheet_count (chotto_universe pool) := by
    show (sheet_count - 0) + (5 - 0) * (chotto_universe pool).length
        + ((chotto_universe pool).length - 0)
      ≤ chotto_fuel sheet_count (chotto_universe pool)
    unfold chotto_fuel
    omega
  obtain ⟨hinv, hcount⟩ := sampler_run_spec hne hlen sheet_count
    (chotto_random_stream seed) (chotto_fuel sheet_count (chotto_universe pool))
    i0 (sampler_initial (chotto_universe pool))
    (sampler_initial_inv (chotto_universe pool) 5 sheet_count hne) hm
  refine ⟨hcount, ?_⟩
  intro a ha
  exact ⟨(hmem a (hinv.accepted_mem a ha)).1, (hmem a (hinv.accepted_mem a ha)).2⟩

theorem columns_foldl_spec (seed sheet_count : Nat) :
    ∀ (ps : List (List Int)) (acc : List (List (List Int)) × Nat),
      (∀ pool ∈ ps, pool.Nodup ∧ 5 ≤ pool.length) →
      ∃ cols, (ps.foldl (column_step seed sheet_count) acc).1 = acc.1 ++ cols
        ∧ List.Forall₂ (fun pool col =>
            col.length = sheet_count
            ∧ ∀ a ∈ col, a.length = 5 ∧ ∀ x ∈ a, x ∈ pool) ps cols := by
  intro ps
  induction ps with
  | nil =>
    intro acc _
    exact ⟨[], by simp, List.Forall₂.nil⟩
  | cons pool ps ih =>
    intro acc hps
    obtain ⟨hnd, hl5⟩ := hps pool (List.mem_cons_self pool ps)
    rw [List.foldl_cons]
    obtain ⟨cols, hcols, hforall⟩ := ih (column_step seed sheet_count acc pool)
      (fun p hp => hps p (List.mem_cons_of_mem pool hp))
    refine ⟨((sampler_run sheet_count (chotto_random_stream seed)
        (chotto_fuel sheet_count (chotto_universe pool)) acc.2
        (sampler_initial (chotto_universe pool))).1).accepted :: cols, ?_, ?_⟩
    · rw [hcols]
      show (column_step seed sheet_count acc pool).1 ++ cols = _
      simp only [column_step]
      rw [List.append_assoc, List.singleton_append]
    · exact List.Forall₂.cons (column_run_spec seed sheet_count acc.2 pool hnd hl5)
        hforall

theorem chotto_columns_spec (seed sheet_count : Nat) :
    (create_random_columns_seeded seed sheet_count).length = 5
    ∧ ∀ x : Nat, x < 5 →
        ((create_random_columns_seeded seed sheet_count).getD x []).length
            = sheet_count
        ∧ ∀ a ∈ (create_random_columns_seeded seed sheet_count).getD x [],
            a.length = 5 ∧ ∀ v ∈ a, v ∈ chotto_pools.getD x [] := by
  have hpools : ∀ pool ∈ chotto_pools, pool.Nodup ∧ 5 ≤ pool.length := by decide
  obtain ⟨cols, hcols, hforall⟩ :=
    columns_foldl_spec seed sheet_count chotto_pools ([], 0) hpools
  have hcols_eq : create_random_columns_seeded seed sheet_count = cols := by
    unfold create_random_columns_seeded
    rw [hcols, List.nil_append]
  have hplen : chotto_pools.length = 5 := rfl
  have hlen5 : cols.length = 5 := by
    rw [← hforall.length_eq, hplen]
  rw [hcols_eq]
  refine ⟨hlen5, ?_⟩
  intro x hx
  rw [List.forall₂_iff_get] at hforall
  obtain ⟨_, hget⟩ := hforall
  have h1 : x < chotto_pools.length := by omega
  have h2 : x < cols.length := by omega
  have hx12 := hget x h1 h2
  have e1 : chotto_pools.get ⟨x, h1⟩ = chotto_pools.getD x [] := by
    rw [List.getD_eq_getElem?_getD, List.getElem?_eq_getElem h1]
    rfl
  have e2 : cols.get ⟨x, h2⟩ = cols.getD x [] := by
    rw [List.getD_eq_getElem?_getD, List.getElem?_eq_getElem h2]
    rfl
  rw [e1, e2] at hx12
  exact hx12

theorem chotto_grids_ok (seed sheet_count : Nat) :
    (create_random_number_grids_seeded seed sheet_count).all chotto_grid_ok
      = true := by
  rw [List.all_eq_true]
  intro g hg
  unfold create_random_number_grids_seeded make_grids at hg
  rcases List.mem_map.mp hg with ⟨i, hi, rfl⟩
  have hi5 : i < sheet_count := List.mem_range.mp hi
  obtain ⟨hclen, hcol⟩ := chotto_columns_spec seed sheet_count
  unfold chotto_grid_ok
  rw [Bool.and_eq_true]
  constructor
  · rw [make_grid_cell _ i 2 2 (by omega) (by omega)]
    simp
  · rw [List.all_eq_true]
    intro x hxmem
    rw [List.all_eq_true]
    intro y hymem
    have hx : x < 5 := List.mem_range.mp hxmem
    have hy : y < 5 := List.mem_range.mp hymem
    by_cases hfree : x = 2 ∧ y = 2
    · simp [hfree]
    · rw [Bool.or_eq_true]
      right
      rw [make_grid_cell _ i x y hx hy, if_neg hfree]
      obtain ⟨hxlen, hxmem2⟩ := hcol x hx
      have hi2 : i < ((create_random_columns_seeded seed sheet_count).getD
          x []).length := by
        rw [hxlen]
        omega
      have harr_mem := getD_mem_of_lt ([] : List Int) hi2
      obtain ⟨halen, hamem⟩ := hxmem2 _ harr_mem
      have hy2 : y < (((create_random_columns_seeded seed sheet_count).getD
          x []).getD i []).length := by
        rw [halen]
        omega
      have hv := getD_mem_of_lt (0 : Int) hy2
      have hvpool := hamem _ hv
      rw [Bool.and_eq_true]
      constructor
      · have h0 : (0 : Int) ∉ chotto_pools.getD x [] := by
          interval_cases x <;> decide
        rw [Bool.not_eq_true', beq_eq_false_iff_ne]
        intro he
        rw [he] at hvpool
        exact h0 hvpool
      · exact List.elem_iff.mpr hvpool

/-! No duplicate is ever accepted when `sheet_count ≤ |Universe|`: the
tolerance cannot reach the arrangement length `k`, because an escalation
out of level `k - 1` is impossible — each entry into that level starts
with a zeroed counter and a fresh full pass, at that level only
already-accepted (duplicate) candidates are rejected, and the pass
accepts every not-yet-accepted universe element before the counter can
reach `|Universe|`. -/

theorem sampler_run_not_lt (sheet_count : Nat) (rs : Nat → Nat)
    (fuel i : Nat) (st : SamplerState)
    (h : ¬ st.accepted.length < sheet_count) :
    sampler_run sheet_count rs fuel i st = (st, i) := by
  cases fuel with
  | zero => rfl
  | succ fuel => simp only [sampler_run, if_neg h]

theorem exists_gt_of_foldr_max_gt {l : List Nat} {t : Nat}
    (h : l.foldr max 0 > t) : ∃ n ∈ l, n > t := by
  induction l with
  | nil =>
    simp only [List.foldr_nil] at h
    omega
  | cons x xs ih =>
    simp only [List.foldr_cons] at h
    rcases lt_max_iff.mp h with hx | hf
    · exact ⟨x, by simp, hx⟩
    · obtain ⟨n, hn, hnt⟩ := ih hf
      exact ⟨n, by simp [hn], hnt⟩

theorem count_matching_cells_eq_length {a b : List Int}
    (hab : a.length = b.length) (h : count_matching_cells a b = a.length) :
    a = b := by
  induction a generalizing b with
  | nil =>
    cases b with
    | nil => rfl
    | cons y ys => simp at hab
  | cons x xs ih =>
    cases b with
    | nil => simp at hab
    | cons y ys =>
      by_cases hxy : x = y
      · subst hxy
        have h2 : count_matching_cells (x :: xs) (x :: ys)
            = count_matching_cells xs ys + 1 := by
          simp [count_matching_cells, List.filter_cons]
        rw [h2, List.length_cons] at h
        rw [ih (by simpa using hab) (by omega)]
      · exfalso
        have h2 : count_matching_cells (x :: xs) (y :: ys)
            = count_matching_cells xs ys := by
          simp [count_matching_cells, List.filter_cons, hxy]
        have hle := count_matching_cells_le_left xs ys
        rw [h2] at h
        rw [List.length_cons] at h
        omega

theorem rejected_at_top_mem {c : List Int} {accepted : List (List Int)}
    {k : Nat} (hk : 0 < k) (hc : c.length = k)
    (hacc : ∀ a ∈ accepted, a.length = k)
    (hrej : max_matching_cells c accepted > k - 1) :
    c ∈ accepted := by
  have hrej2 : (accepted.map fun previous_column =>
      count_matching_cells c previous_column).foldr max 0 > k - 1 := hrej
  obtain ⟨n, hn, hnt⟩ := exists_gt_of_foldr_max_gt hrej2
  rcases List.mem_map.mp hn with ⟨a, ha, rfl⟩
  have hle : count_matching_cells c a ≤ k :=
    le_trans (count_matching_cells_le_left c a) (le_of_eq hc)
  have heq : count_matching_cells c a = c.length := by omega
  rw [count_matching_cells_eq_length (by rw [hc, hacc a ha]) heq]
  exact ha

theorem mem_eraseIdx_of_ne_getD {α : Type} {l : List α} {i : Nat} {a : α}
    (d : α) (ha : a ∈ l) (hne2 : a ≠ l.getD i d) : a ∈ l.eraseIdx i := by
  induction l generalizing i with
  | nil => cases ha
  | cons x xs ih =>
    cases i with
    | zero =>
      rw [List.eraseIdx_cons_zero]
      rcases List.mem_cons.mp ha with rfl | h
      · exfalso
        apply hne2
        rw [List.getD_cons_zero]
      · exact h
    | succ n =>
      rw [List.eraseIdx_cons_succ]
      rcases List.mem_cons.mp ha with rfl | h
      · exact List.mem_cons_self _ _
      · exact List.mem_cons_of_mem _ (ih h (by simpa using hne2))

theorem get_next_detail {α : Type} {bag : Shufflebag α} {r : Nat} {x : α}
    {bag1 : Shufflebag α} (h : bag.get_next r = some (x, bag1)) :
    ∃ rem, rem = (if bag.remaining.isEmpty then bag.elems else bag.remaining)
      ∧ x ∈ rem
      ∧ bag1.elems = bag.elems
      ∧ bag1.remaining.length + 1 = rem.length
      ∧ (∀ a ∈ rem, a ≠ x → a ∈ bag1.remaining) := by
  unfold Shufflebag.get_next at h
  rcases hrem : (if bag.remaining.isEmpty then bag.elems else bag.remaining)
    with _ | ⟨y, ys⟩
  · rw [hrem] at h; cases h
  · rw [hrem] at h
    simp only [Option.some.injEq, Prod.mk.injEq] at h
    obtain ⟨hx, hbag⟩ := h
    have hlt : r % (y :: ys).length < (y :: ys).length :=
      Nat.mod_lt _ (by simp)
    refine ⟨y :: ys, rfl, ?_, ?_, ?_, ?_⟩
    · rw [← hx]
      exact getD_mem_of_lt y hlt
    · rw [← hbag]
    · rw [← hbag]
      show ((y :: ys).eraseIdx (r % (y :: ys).length)).length + 1
        = (y :: ys).length
      rw [List.length_eraseIdx_of_lt hlt]
      have hpos : 0 < (y :: ys).length := by simp
      omega
    · intro a ha hax
      rw [← hbag]
      show a ∈ (y :: ys).eraseIdx (r % (y :: ys).length)
      apply mem_eraseIdx_of_ne_getD y ha
      rw [hx]
      exact hax

theorem sampler_step_tight {univ : List (List Int)} {k sheet_count : Nat}
    {st : SamplerState}
    (hne : univ ≠ []) (hnd : univ.Nodup) (hlen : ∀ a ∈ univ, a.length = k)
    (hk : 0 < k) (hcu : sheet_count ≤ univ.length)
    (hinv : SamplerTightInv univ k sheet_count st)
    (hrun : st.accepted.length < sheet_count) (r : Nat) :
    SamplerTightInv univ k sheet_count (sampler_step r st) := by
  obtain ⟨c, bag1, hdraw⟩ := get_next_total st.column_bag r
    (by rw [hinv.base.elems_eq]; exact hne)
  obtain ⟨rem, hrem_def, hc_rem, helems, hlen_rem, hkeep⟩ :=
    get_next_detail hdraw
  have hbase := sampler_step_inv hne hlen hinv.base hrun r
  have hc_univ : c ∈ univ := by
    rcases (get_next_spec hdraw).2.1 with h | h
    · rw [← hinv.base.elems_eq]; exact h
    · exact hinv.base.remaining_mem c h
  have htop_notempty : st.matching_cells_tolerance = k - 1 →
      ¬ st.column_bag.remaining.isEmpty = true := by
    intro htop hemp
    have hsubacc : ∀ a ∈ univ, a ∈ st.accepted := by
      intro a ha
      apply hinv.top_covered htop a ha
      rw [List.isEmpty_iff.mp hemp]
      exact List.not_mem_nil a
    have hge := (List.subperm_of_subset hnd hsubacc).length_le
    omega
  have htop_rem : st.matching_cells_tolerance = k - 1 →
      rem = st.column_bag.remaining := by
    intro htop
    rw [hrem_def, if_neg (htop_notempty htop)]
  have htop_rej_mem : st.matching_cells_tolerance = k - 1 →
      max_matching_cells c st.accepted > st.matching_cells_tolerance →
      c ∈ st.accepted := by
    intro htop hrej
    apply rejected_at_top_mem hk (hlen c hc_univ)
      (fun a ha => hlen a (hinv.base.accepted_mem a ha))
    rw [← htop]
    exact hrej
  have htop_no_esc : st.matching_cells_tolerance = k - 1 →
      max_matching_cells c st.accepted > st.matching_cells_tolerance →
      ¬ st.failed_pick_count + 1 ≥ bag1.elems.length := by
    intro htop hrej hth
    have hcmem := htop_rej_mem htop hrej
    have hremq := htop_rem htop
    have hS : (univ.filter fun e => decide (e ∉ st.accepted)).length
        = univ.length - st.accepted.length := by
      rw [← length_filter_not_mem hnd hinv.nodup hinv.base.accepted_mem]
      congr 1
      apply List.filter_congr
      intro a _
      exact decide_eq_decide.mpr Iff.rfl
    have hacc_le : st.accepted.length ≤ univ.length :=
      (List.subperm_of_subset hinv.nodup hinv.base.accepted_mem).length_le
    have hSsub : ∀ a ∈ (univ.filter fun e => decide (e ∉ st.accepted)),
        a ∈ st.column_bag.remaining := by
      intro a ha
      have h1 := List.mem_filter.mp ha
      by_contra hnr
      exact of_decide_eq_true h1.2 (hinv.top_covered htop a h1.1 hnr)
    have hcS : c ∉ (univ.filter fun e => decide (e ∉ st.accepted)) := by
      intro hcs
      exact of_decide_eq_true (List.mem_filter.mp hcs).2 hcmem
    have hnodupSC : ((univ.filter fun e => decide (e ∉ st.accepted))
        ++ [c]).Nodup := by
      rw [List.nodup_append]
      refine ⟨hnd.filter _, List.nodup_singleton c, ?_⟩
      intro a ha hb
      rw [List.mem_singleton.mp hb] at ha
      exact hcS ha
    have hsubSC : ∀ a ∈ (univ.filter fun e => decide (e ∉ st.accepted))
        ++ [c], a ∈ st.column_bag.remaining := by
      intro a ha
      rcases List.mem_append.mp ha with h | h
      · exact hSsub a h
      · rw [List.mem_singleton.mp h, ← hremq]
        exact hc_rem
    have hlenSC := (List.subperm_of_subset hnodupSC hsubSC).length_le
    rw [List.length_append, List.length_singleton, hS] at hlenSC
    have htc := hinv.top_count htop
    rw [helems, hinv.base.elems_eq] at hth
    omega
  by_cases hrej : max_matching_cells c st.accepted > st.matching_cells_tolerance
  · by_cases hth : st.failed_pick_count + 1 ≥ bag1.elems.length
    · have htl : st.matching_cells_tolerance < k - 1 := by
        have h1 := hinv.tol_lt
        rcases Nat.lt_or_ge st.matching_cells_tolerance (k - 1) with h2 | h2
        · exact h2
        · exact absurd hth (htop_no_esc (by omega) hrej)
      have hstep := sampler_step_reject_escalate hdraw hrej hth
      refine { base := hbase, tol_lt := ?_, nodup := ?_,
               top_covered := ?_, top_count := ?_ }
      · rw [hstep]
        show st.matching_cells_tolerance + 1 < k
        omega
      · exact sampler_step_nodup hlen hinv.base r (fun _ => hinv.nodup)
          (by rw [hstep]; show st.matching_cells_tolerance + 1 < k; omega)
      · rw [hstep]
        intro _ a ha hnr
        exfalso
        apply hnr
        show a ∈ bag1.elems
        rw [helems, hinv.base.elems_eq]
        exact ha
      · rw [hstep]
        intro _
        show 0 + st.accepted.length + (bag1.reset).remaining.length
          ≤ univ.length + sheet_count - 1
        have hr : (bag1.reset).remaining.length = univ.length := by
          show bag1.elems.length = univ.length
          rw [helems, hinv.base.elems_eq]
        omega
    · have hstep := sampler_step_reject_keep hdraw hrej hth
      refine { base := hbase, tol_lt := ?_, nodup := ?_,
               top_covered := ?_, top_count := ?_ }
      · rw [hstep]
        exact hinv.tol_lt
      · exact sampler_step_nodup hlen hinv.base r (fun _ => hinv.nodup)
          (by rw [hstep]; exact hinv.tol_lt)
      · rw [hstep]
        intro htop a ha hnr
        have hremq := htop_rem htop
        by_cases hac : a = c
        · rw [hac]
          exact htop_rej_mem htop hrej
        · apply hinv.top_covered htop a ha
          intro har
          apply hnr
          show a ∈ bag1.remaining
          apply hkeep a _ hac
          rw [hremq]
          exact har
      · rw [hstep]
        intro htop
        show st.failed_pick_count + 1 + st.accepted.length
            + bag1.remaining.length ≤ univ.length + sheet_count - 1
        have htc := hinv.top_count htop
        have hrl : bag1.remaining.length + 1
            = st.column_bag.remaining.length := by
          rw [← htop_rem htop]
          exact hlen_rem
        omega
  · have hstep := sampler_step_accept hdraw hrej
    refine { base := hbase, tol_lt := ?_, nodup := ?_,
             top_covered := ?_, top_count := ?_ }
    · rw [hstep]
      exact hinv.tol_lt
    · exact sampler_step_nodup hlen hinv.base r (fun _ => hinv.nodup)
        (by rw [hstep]; exact hinv.tol_lt)
    · rw [hstep]
      intro htop a ha hnr
      show a ∈ st.accepted ++ [c]
      by_cases hac : a = c
      · rw [hac]
        exact List.mem_append.mpr (Or.inr (List.mem_singleton_self c))
      · apply List.mem_append.mpr
        left
        apply hinv.top_covered htop a ha
        intro har
        apply hnr
        show a ∈ bag1.remaining
        apply hkeep a _ hac
        rw [htop_rem htop]
        exact har
    · rw [hstep]
      intro htop
      show st.failed_pick_count + (st.accepted ++ [c]).length
          + bag1.remaining.length ≤ univ.length + sheet_count - 1
      rw [List.length_append, List.length_singleton]
      have htc := hinv.top_count htop
      have hrl : bag1.remaining.length + 1
          = st.column_bag.remaining.length := by
        rw [← htop_rem htop]
        exact hlen_rem
      omega

theorem sampler_run_tight {univ : List (List Int)} {k : Nat}
    (hne : univ ≠ []) (hnd : univ.Nodup) (hlen : ∀ a ∈ univ, a.length = k)
    (hk : 0 < k) (sheet_count : Nat) (hcu : sheet_count ≤ univ.length)
    (rs : Nat → Nat) :
    ∀ fuel i st, SamplerTightInv univ k sheet_count st →
      SamplerTightInv univ k sheet_count
        ((sampler_run sheet_count rs fuel i st).1) := by
  intro fuel
  induction fuel with
  | zero => intro i st h; exact h
  | succ fuel ih =>
    intro i st h
    by_cases hrun : st.accepted.length < sheet_count
    · simp only [sampler_run, if_pos hrun]
      exact ih (i + 1) _ (sampler_step_tight hne hnd hlen hk hcu h hrun (rs i))
    · simp only [sampler_run, if_neg hrun]
      exact h

theorem sampler_initial_tight (univ : List (List Int)) (k sheet_count : Nat)
    (hne : univ ≠ []) (hk : 0 < k) (hcount1 : 1 ≤ sheet_count) :
    SamplerTightInv univ k sheet_count (sampler_initial univ) :=
  { base := sampler_initial_inv univ k sheet_count hne
    tol_lt := hk
    nodup := List.nodup_nil
    top_covered := fun _ a ha hnr => absurd ha hnr
    top_count := fun _ => by
      show 0 + 0 + univ.length ≤ univ.length + sheet_count - 1
      omega }

/-! Claim theorems. -/

/-- C1 (counterexample): the claim states that on acceptance
`failedAttempts` is reset to `0`; the code does not reset it.  In the
concrete state below the candidate `[2, 1]` is accepted (appended to the
accepted list), yet `failed_pick_count` stays at its old value `3`. -/
theorem claim1_counterexample :
    (sampler_step 0
      { accepted := [[1, 2]],
        matching_cells_tolerance := 2,
        failed_pick_count := 3,
        column_bag := { elems := [[1, 2], [2, 1]],
                        remaining := [[2, 1]] } }).accepted
      = [[1, 2], [2, 1]]
    ∧ (sampler_step 0
      { accepted := [[1, 2]],
        matching_cells_tolerance := 2,
        failed_pick_count := 3,
        column_bag := { elems := [[1, 2], [2, 1]],
                        remaining := [[2, 1]] } }).failed_pick_count = 3
    ∧ (sampler_step 0
      { accepted := [[1, 2]],
        matching_cells_tolerance := 2,
        failed_pick_count := 3,
        column_bag := { elems := [[1, 2], [2, 1]],
                        remaining := [[2, 1]] } }).failed_pick_count ≠ 0 := by
  refine ⟨by decide, by decide, by decide⟩

/-- C1 (amended): in the per-draw step, a candidate drawn from the bag is
accepted if and only if the accepted list is empty or the maximum
similarity to every already-accepted arrangement is at most the current
tolerance; on acceptance the candidate is appended and `failedAttempts`
is left unchanged (not reset); on rejection `failedAttempts` is
incremented, or set to `0` together with a tolerance escalation when the
incremented counter reaches the universe size. -/
theorem claim1_per_draw_step (r : Nat) (st : SamplerState) (c : List Int)
    (bag1 : Shufflebag (List Int))
    (hdraw : st.column_bag.get_next r = some (c, bag1)) :
    ((st.accepted = []
        ∨ max_matching_cells c st.accepted ≤ st.matching_cells_tolerance) ↔
      (sampler_step r st).accepted = st.accepted ++ [c])
    ∧ ((st.accepted = []
        ∨ max_matching_cells c st.accepted ≤ st.matching_cells_tolerance) →
        (sampler_step r st).failed_pick_count = st.failed_pick_count)
    ∧ (max_matching_cells c st.accepted > st.matching_cells_tolerance →
        (sampler_step r st).accepted = st.accepted
        ∧ (sampler_step r st).failed_pick_count
            = if st.failed_pick_count + 1 ≥ bag1.elems.length then 0
              else st.failed_pick_count + 1) := by
  have hcond : (st.accepted = []
      ∨ max_matching_cells c st.accepted ≤ st.matching_cells_tolerance)
      ↔ ¬ max_matching_cells c st.accepted > st.matching_cells_tolerance := by
    constructor
    · rintro (he | hle)
      · rw [he]
        show ¬ max_matching_cells c [] > st.matching_cells_tolerance
        unfold max_matching_cells
        simp
      · omega
    · intro h
      right
      omega
  refine ⟨⟨?_, ?_⟩, ?_, ?_⟩
  · intro h
    rw [sampler_step_accept hdraw (hcond.mp h)]
  · intro h
    by_cases hrej : max_matching_cells c st.accepted
        > st.matching_cells_tolerance
    · exfalso
      have ha : (sampler_step r st).accepted = st.accepted := by
        by_cases hth : st.failed_pick_count + 1 ≥ bag1.elems.length
        · rw [sampler_step_reject_escalate hdraw hrej hth]
        · rw [sampler_step_reject_keep hdraw hrej hth]
      rw [ha] at h
      have hll := congrArg List.length h
      rw [List.length_append, List.length_singleton] at hll
      omega
    · exact hcond.mpr hrej
  · intro h
    rw [sampler_step_accept hdraw (hcond.mp h)]
  · intro hrej
    by_cases hth : st.failed_pick_count + 1 ≥ bag1.elems.length
    · rw [sampler_step_reject_escalate hdraw hrej hth]
      exact ⟨rfl, by rw [if_pos hth]⟩
    · rw [sampler_step_reject_keep hdraw hrej hth]
      exact ⟨rfl, by rw [if_neg hth]⟩

/-- C1 (witness): the amended per-draw characterization applied to a
concrete one-element state. -/
theorem claim1_per_draw_step_witness :
    (Shufflebag.get_next
        ({ elems := [[1]], remaining := [[1]] } : Shufflebag (List Int)) 0
      = some ([1], { elems := [[1]], remaining := [] }))
    ∧ ((([] : List (List Int)) = [] ∨ max_matching_cells [1] [] ≤ 0) ↔
        (sampler_step 0
          { accepted := [],
            matching_cells_tolerance := 0,
            failed_pick_count := 0,
            column_bag := { elems := [[1]], remaining := [[1]] } }).accepted
          = [] ++ [[1]])
    ∧ ((([] : List (List Int)) = [] ∨ max_matching_cells [1] [] ≤ 0) →
        (sampler_step 0
          { accepted := [],
            matching_cells_tolerance := 0,
            failed_pick_count := 0,
            column_bag := { elems := [[1]], remaining := [[1]] } }).failed_pick_count
          = 0)
    ∧ (max_matching_cells [1] [] > 0 →
        (sampler_step 0
          { accepted := [],
            matching_cells_tolerance := 0,
            failed_pick_count := 0,
            column_bag := { elems := [[1]], remaining := [[1]] } }).accepted = []
        ∧ (sampler_step 0
          { accepted := [],
            matching_cells_tolerance := 0,
            failed_pick_count := 0,
            column_bag := { elems := [[1]], remaining := [[1]] } }).failed_pick_count
            = if 0 + 1 ≥ ([[1]] : List (List Int)).length then 0
              else 0 + 1) :=
  ⟨by decide,
    claim1_per_draw_step 0
      { accepted := [],
        matching_cells_tolerance := 0,
        failed_pick_count := 0,
        column_bag := { elems := [[1]], remaining := [[1]] } }
      [1] { elems := [[1]], remaining := [] } (by decide)⟩

/-- C2: when a rejection makes `failedAttempts` reach or exceed the size
of the universe (`column_bag.elems.len()`), the step increments the
tolerance by exactly one, resets `failedAttempts` to `0`, and resets the
bag to a fresh pass over the whole universe. -/
theorem claim2_tolerance_escalation (r : Nat) (st : SamplerState)
    (c : List Int) (bag1 : Shufflebag (List Int))
    (hdraw : st.column_bag.get_next r = some (c, bag1))
    (hrej : max_matching_cells c st.accepted > st.matching_cells_tolerance)
    (hth : st.failed_pick_count + 1 ≥ bag1.elems.length) :
    (sampler_step r st).matching_cells_tolerance
        = st.matching_cells_tolerance + 1
    ∧ (sampler_step r st).failed_pick_count = 0
    ∧ (sampler_step r st).column_bag = bag1.reset
    ∧ (sampler_step r st).column_bag.remaining
        = (sampler_step r st).column_bag.elems
    ∧ (sampler_step r st).column_bag.elems = st.column_bag.elems := by
  rw [sampler_step_reject_escalate hdraw hrej hth]
  exact ⟨rfl, rfl, rfl, rfl, (get_next_spec hdraw).1⟩

/-- C2 (witness): escalation at a concrete state in which the duplicate
draw `[1, 2]` is rejected and the incremented counter reaches the
universe size `2`. -/
theorem claim2_tolerance_escalation_witness :
    (Shufflebag.get_next
        ({ elems := [[1, 2], [2, 1]], remaining := [[1, 2]] } :
          Shufflebag (List Int)) 0
        = some ([1, 2], { elems := [[1, 2], [2, 1]], remaining := [] })
      ∧ max_matching_cells [1, 2] [[1, 2]] > 0
      ∧ 1 + 1 ≥ ([[1, 2], [2, 1]] : List (List Int)).length)
    ∧ (sampler_step 0
        { accepted := [[1, 2]],
          matching_cells_tolerance := 0,
          failed_pick_count := 1,
          column_bag := { elems := [[1, 2], [2, 1]],
                          remaining := [[1, 2]] } }).matching_cells_tolerance
        = 0 + 1
    ∧ (sampler_step 0
        { accepted := [[1, 2]],
          matching_cells_tolerance := 0,
          failed_pick_count := 1,
          column_bag := { elems := [[1, 2], [2, 1]],
                          remaining := [[1, 2]] } }).failed_pick_count = 0
    ∧ (sampler_step 0
        { accepted := [[1, 2]],
          matching_cells_tolerance := 0,
          failed_pick_count := 1,
          column_bag := { elems := [[1, 2], [2, 1]],
                          remaining := [[1, 2]] } }).column_bag
        = Shufflebag.reset ({ elems := [[1, 2], [2, 1]], remaining := [] } :
            Shufflebag (List Int))
    ∧ (sampler_step 0
        { accepted := [[1, 2]],
          matching_cells_tolerance := 0,
          failed_pick_count := 1,
          column_bag := { elems := [[1, 2], [2, 1]],
                          remaining := [[1, 2]] } }).column_bag.remaining
        = (sampler_step 0
        { accepted := [[1, 2]],
          matching_cells_tolerance := 0,
          failed_pick_count := 1,
          column_bag := { elems := [[1, 2], [2, 1]],
                          remaining := [[1, 2]] } }).column_bag.elems
    ∧ (sampler_step 0
        { accepted := [[1, 2]],
          matching_cells_tolerance := 0,
          failed_pick_count := 1,
          column_bag := { elems := [[1, 2], [2, 1]],
                          remaining := [[1, 2]] } }).column_bag.elems
        = ([[1, 2], [2, 1]] : List (List Int)) :=
  ⟨⟨by decide, by decide, by decide⟩,
    claim2_tolerance_escalation 0
      { accepted := [[1, 2]],
        matching_cells_tolerance := 0,
        failed_pick_count := 1,
        column_bag := { elems := [[1, 2], [2, 1]], remaining := [[1, 2]] } }
      [1, 2] { elems := [[1, 2], [2, 1]], remaining := [] }
      (by decide) (by decide) (by decide)⟩

/-- C3: the diversity invariant.  Running the loop from the initial state,
(1) the source-derived accepted list is the erasure of the
ghost-instrumented one (so the recorded acceptance tolerances really
belong to the source computation); (2) for every pair of accepted
arrangements with recorded acceptance tolerances, the pairwise similarity
is at most the maximum of the two tolerances; (3) the tolerance is
monotonically non-decreasing along any run. -/
theorem claim3_diversity_invariant (univ : List (List Int))
    (sheet_count : Nat) (rs : Nat → Nat) (fuel i : Nat) :
    ((sampler_run sheet_count rs fuel i (sampler_initial univ)).1).accepted
      = ((ghost_run sheet_count rs fuel i (ghost_initial univ)).1).accepted.map
          Prod.fst
    ∧ ((ghost_run sheet_count rs fuel i (ghost_initial univ)).1).accepted.Pairwise
        (fun p q => count_matching_cells p.1 q.1 ≤ max p.2 q.2)
    ∧ ∀ fuel2 i2 st, st.matching_cells_tolerance
        ≤ ((sampler_run sheet_count rs fuel2 i2 st).1).matching_cells_tolerance := by
  refine ⟨?_, ?_, fun fuel2 i2 st => sampler_run_tol_mono sheet_count rs fuel2 i2 st⟩
  · have h := ghost_erase_run sheet_count rs fuel i (ghost_initial univ)
    have hinit : ghost_erase (ghost_initial univ) = sampler_initial univ := rfl
    rw [hinit] at h
    rw [← h]
    rfl
  · have hinv := ghost_run_inv sheet_count rs fuel i (ghost_initial univ)
      ⟨List.Pairwise.nil, fun p hp => absurd hp (List.not_mem_nil p)⟩
    exact hinv.1.imp fun h => le_trans h (le_max_right _ _)

/-- C4: the sampler always terminates.  With every universe arrangement of
length `k`, the tolerance never exceeds `k` (at tolerance `k` every
candidate is acceptable since similarity cannot exceed `k`), and fuel
`count + (k + 1) * |Universe|` provably suffices for the loop to produce
exactly `count` accepted arrangements. -/
theorem claim4_termination (univ : List (List Int)) (k sheet_count : Nat)
    (rs : Nat → Nat) (fuel i : Nat)
    (hne : univ ≠ []) (hlen : ∀ a ∈ univ, a.length = k)
    (hfuel : sheet_count + k * univ.length + univ.length ≤ fuel) :
    ((sampler_run sheet_count rs fuel i
        (sampler_initial univ)).1).accepted.length = sheet_count
    ∧ ((sampler_run sheet_count rs fuel i
        (sampler_initial univ)).1).matching_cells_tolerance ≤ k := by
  have hm : sampler_measure univ k sheet_count (sampler_initial univ) ≤ fuel := by
    show (sheet_count - 0) + (k - 0) * univ.length + (univ.length - 0) ≤ fuel
    simp only [Nat.sub_zero]
    omega
  obtain ⟨hinv, hcount⟩ := sampler_run_spec hne hlen sheet_count rs fuel i
    (sampler_initial univ) (sampler_initial_inv univ k sheet_count hne) hm
  exact ⟨hcount, hinv.tol_le⟩

/-- C4 (witness): the termination bound applied to the concrete universe
of both arrangements of `{1, 2}` with `k = 2`, `count = 3`, fuel `9`. -/
theorem claim4_termination_witness :
    (([[1, 2], [2, 1]] : List (List Int)) ≠ []
      ∧ (∀ a ∈ ([[1, 2], [2, 1]] : List (List Int)), a.length = 2)
      ∧ 3 + 2 * 2 + 2 ≤ 9)
    ∧ ((sampler_run 3 (fun _ => 0) 9 0
        (sampler_initial [[1, 2], [2, 1]])).1).accepted.length = 3
    ∧ ((sampler_run 3 (fun _ => 0) 9 0
        (sampler_initial [[1, 2], [2, 1]])).1).matching_cells_tolerance ≤ 2 :=
  ⟨⟨by decide, by decide, by decide⟩,
    claim4_termination [[1, 2], [2, 1]] 2 3 (fun _ => 0) 9 0
      (by decide) (by decide) (by decide)⟩

/-- C5 (counterexample): the claim states that for `count ≤ |Universe|`
the column completes with tolerance still `0`.  For the enumerated
universe of the `6 = |Universe|` arrangements of size `2` over the pool
`{1, 2, 3}` and `count = 6`, the run completes (all `6` accepted) but the
final tolerance is not `0` — at tolerance `0` a second arrangement sharing
any position with an accepted one can never be accepted. -/
theorem claim5_counterexample :
    get_all_possible_arrangements_of_size_k 2 ([1, 2, 3] : List Int)
      = .ok [[1, 2], [1, 3], [2, 1], [2, 3], [3, 1], [3, 2]]
    ∧ ((sampler_run 6 (fun _ => 0) 24 0
        (sampler_initial
          [[1, 2], [1, 3], [2, 1], [2, 3], [3, 1], [3, 2]])).1).accepted.length
        = 6
    ∧ ((sampler_run 6 (fun _ => 0) 24 0
        (sampler_initial
          [[1, 2], [1, 3], [2, 1], [2, 3], [3, 1],
            [3, 2]])).1).matching_cells_tolerance ≠ 0 := by
  refine ⟨rfl, by decide, by decide⟩

/-- C5 (amended): for every requested `count` at most the universe size,
the Sampler never accepts a duplicate arrangement for the column — the
tolerance cannot reach the arrangement length `k`, since escalating out
of level `k - 1` is impossible — and, given sufficient fuel, it completes
with exactly `count` accepted arrangements; in particular for
`count = |Universe|` every arrangement of the universe is accepted
exactly once (the accepted list is a permutation of the universe).  The
tolerance, however, need not stay at `0` (see the counterexample). -/
theorem claim5_no_duplicates (univ : List (List Int)) (k sheet_count : Nat)
    (rs : Nat → Nat) (fuel i : Nat)
    (hne : univ ≠ []) (hnd : univ.Nodup) (hlen : ∀ a ∈ univ, a.length = k)
    (hk : 0 < k) (hcu : sheet_count ≤ univ.length) :
    ((sampler_run sheet_count rs fuel i
        (sampler_initial univ)).1).accepted.Nodup
    ∧ (sheet_count + k * univ.length + univ.length ≤ fuel →
        ((sampler_run sheet_count rs fuel i
          (sampler_initial univ)).1).accepted.length = sheet_count)
    ∧ (sheet_count = univ.length →
        sheet_count + k * univ.length + univ.length ≤ fuel →
        ((sampler_run sheet_count rs fuel i
          (sampler_initial univ)).1).accepted.Perm univ) := by
  have hrunspec : sheet_count + k * univ.length + univ.length ≤ fuel →
      SamplerInv univ k sheet_count
        ((sampler_run sheet_count rs fuel i (sampler_initial univ)).1)
      ∧ ((sampler_run sheet_count rs fuel i
          (sampler_initial univ)).1).accepted.length = sheet_count := by
    intro hfuel
    have hm : sampler_measure univ k sheet_count (sampler_initial univ)
        ≤ fuel := by
      show (sheet_count - 0) + (k - 0) * univ.length + (univ.length - 0)
        ≤ fuel
      simp only [Nat.sub_zero]
      omega
    exact sampler_run_spec hne hlen sheet_count rs fuel i
      (sampler_initial univ) (sampler_initial_inv univ k sheet_count hne) hm
  have hnodup : ((sampler_run sheet_count rs fuel i
      (sampler_initial univ)).1).accepted.Nodup := by
    by_cases hc0 : sheet_count = 0
    · rw [hc0, sampler_run_not_lt 0 rs fuel i (sampler_initial univ)
        (by simp)]
      exact List.nodup_nil
    · exact (sampler_run_tight hne hnd hlen hk sheet_count hcu rs fuel i
        (sampler_initial univ)
        (sampler_initial_tight univ k sheet_count hne hk (by omega))).nodup
  refine ⟨hnodup, fun hfuel => (hrunspec hfuel).2, ?_⟩
  intro hcU hfuel
  obtain ⟨hinv, hlen_eq⟩ := hrunspec hfuel
  apply (List.subperm_of_subset hnodup hinv.accepted_mem).perm_of_length_le
  rw [hlen_eq, hcU]

/-- C5 (witness): the no-duplicate theorem applied to the enumerated
universe of the six size-2 arrangements over `{1, 2, 3}` with
`count = 6 = |Universe|`: the run accepts all six arrangements exactly
once (a permutation of the universe) even though — as the counterexample
shows — the tolerance ends at `1`. -/
theorem claim5_no_duplicates_witness :
    (([[1, 2], [1, 3], [2, 1], [2, 3], [3, 1], [3, 2]] : List (List Int)) ≠ []
      ∧ ([[1, 2], [1, 3], [2, 1], [2, 3], [3, 1], [3, 2]] :
          List (List Int)).Nodup
      ∧ (∀ a ∈ ([[1, 2], [1, 3], [2, 1], [2, 3], [3, 1], [3, 2]] :
          List (List Int)), a.length = 2)
      ∧ 0 < 2
      ∧ 6 ≤ ([[1, 2], [1, 3], [2, 1], [2, 3], [3, 1], [3, 2]] :
          List (List Int)).length)
    ∧ ((sampler_run 6 (fun _ => 0) 24 0
        (sampler_initial
          [[1, 2], [1, 3], [2, 1], [2, 3], [3, 1], [3, 2]])).1).accepted.Nodup
    ∧ (6 + 2 * ([[1, 2], [1, 3], [2, 1], [2, 3], [3, 1], [3, 2]] :
          List (List Int)).length
        + ([[1, 2], [1, 3], [2, 1], [2, 3], [3, 1], [3, 2]] :
          List (List Int)).length ≤ 24 →
        ((sampler_run 6 (fun _ => 0) 24 0
          (sampler_initial
            [[1, 2], [1, 3], [2, 1], [2, 3], [3, 1],
              [3, 2]])).1).accepted.length = 6)
    ∧ ((6 : Nat) = ([[1, 2], [1, 3], [2, 1], [2, 3], [3, 1], [3, 2]] :
          List (List Int)).length →
        6 + 2 * ([[1, 2], [1, 3], [2, 1], [2, 3], [3, 1], [3, 2]] :
          List (List Int)).length
        + ([[1, 2], [1, 3], [2, 1], [2, 3], [3, 1], [3, 2]] :
          List (List Int)).length ≤ 24 →
        ((sampler_run 6 (fun _ => 0) 24 0
          (sampler_initial
            [[1, 2], [1, 3], [2, 1], [2, 3], [3, 1],
              [3, 2]])).1).accepted.Perm
          [[1, 2], [1, 3], [2, 1], [2, 3], [3, 1], [3, 2]]) :=
  ⟨⟨by decide, by decide, by decide, by decide, by decide⟩,
    claim5_no_duplicates [[1, 2], [1, 3], [2, 1], [2, 3], [3, 1], [3, 2]]
      2 6 (fun _ => 0) 24 0
      (by decide) (by decide) (by decide) (by decide) (by decide)⟩

/-- C6: for every pool of distinct values and every `k` with
`0 < k ≤ n`, the enumerator returns exactly `n!/(n−k)!` (equivalently,
`Nat.descFactorial n k`) arrangements, each an ordered sequence of
exactly `k` pool values with no internal repetition, and no two returned
arrangements are equal; the result is a pure function of `(pool, k)`, so
re-running it yields the identical ordered list. -/
theorem claim6_enumerator_correct {α : Type} [DecidableEq α] (k : Nat)
    (elements : List α) (hnd : elements.Nodup) (hk : 0 < k)
    (hkn : k ≤ elements.length) :
    ∃ l, get_all_possible_arrangements_of_size_k k elements = .ok l
      ∧ l.length = elements.length.descFactorial k
      ∧ l.length
          = Nat.factorial elements.length
            / Nat.factorial (elements.length - k)
      ∧ l.Nodup
      ∧ ∀ a ∈ l, a.length = k ∧ a.Nodup ∧ ∀ x ∈ a, x ∈ elements := by
  obtain ⟨l, hok, hlen, hnodup, hmem⟩ := arrangements_spec k elements hnd hk hkn
  exact ⟨l, hok, hlen, by rw [hlen, Nat.descFactorial_eq_div hkn], hnodup, hmem⟩

/-- C6 (witness): the enumerator spec at the pool `{1, 2, 3}` and
`k = 2`. -/
theorem claim6_enumerator_correct_witness :
    (([1, 2, 3] : List Int).Nodup ∧ 0 < 2
      ∧ 2 ≤ ([1, 2, 3] : List Int).length)
    ∧ ∃ l, get_all_possible_arrangements_of_size_k 2 ([1, 2, 3] : List Int)
        = .ok l
      ∧ l.length = ([1, 2, 3] : List Int).length.descFactorial 2
      ∧ l.length
          = Nat.factorial ([1, 2, 3] : List Int).length
            / Nat.factorial (([1, 2, 3] : List Int).length - 2)
      ∧ l.Nodup
      ∧ ∀ a ∈ l, a.length = 2 ∧ a.Nodup ∧ ∀ x ∈ a, x ∈ ([1, 2, 3] : List Int) :=
  ⟨⟨by decide, by decide, by decide⟩,
    claim6_enumerator_correct 2 [1, 2, 3] (by decide) (by decide) (by decide)⟩

/-- C7: for every sheet index `i`, the assembler produces a grid whose
cell `(x, y)` equals element `y` of the `i`-th accepted arrangement of
column `x` for every `(x, y)` other than `(2, 2)`; cell `(2, 2)` holds
the free marker (`0`, never populated with a number); and, when the five
columns' arrangements draw their values from their columns' pools, every
non-free cell holds a value from the pool assigned to its column. -/
theorem claim7_grid_assembler (columns : List (List (List Int)))
    (pools : List (List Int)) (sheet_count i x y : Nat)
    (hx : x < 5) (hy : y < 5) (hi : i < sheet_count)
    (hcols : columns.length = 5)
    (hlen : ∀ c ∈ columns, c.length = sheet_count)
    (harr : ∀ x2 : Nat, x2 < 5 → ∀ a ∈ columns.getD x2 [],
      a.length = 5 ∧ ∀ v ∈ a, v ∈ pools.getD x2 []) :
    (make_grids columns sheet_count).length = sheet_count
    ∧ ((make_grids columns sheet_count).getD i (Grid.new 5 5)).get 2 2 = 0
    ∧ (¬(x = 2 ∧ y = 2) →
        ((make_grids columns sheet_count).getD i (Grid.new 5 5)).get x y
          = ((columns.getD x []).getD i []).getD y 0)
    ∧ (¬(x = 2 ∧ y = 2) →
        ((make_grids columns sheet_count).getD i (Grid.new 5 5)).get x y
          ∈ pools.getD x []) := by
  have hgd := make_grids_getD columns sheet_count i hi (Grid.new 5 5)
  refine ⟨make_grids_length columns sheet_count, ?_, ?_, ?_⟩
  · rw [hgd, make_grid_cell _ i 2 2 (by omega) (by omega)]
    simp
  · intro hfree
    rw [hgd, make_grid_cell _ i x y hx hy, if_neg hfree]
  · intro hfree
    rw [hgd, make_grid_cell _ i x y hx hy, if_neg hfree]
    have hxcols : x < columns.length := by rw [hcols]; omega
    have hcolmem : columns.getD x [] ∈ columns := getD_mem_of_lt [] hxcols
    have hilen : i < (columns.getD x []).length := by
      rw [hlen _ hcolmem]
      exact hi
    have harr2 := harr x hx _ (getD_mem_of_lt [] hilen)
    have hylen : y < ((columns.getD x []).getD i []).length := by
      rw [harr2.1]
      exact hy
    exact harr2.2 _ (getD_mem_of_lt 0 hylen)

/-- C7 (witness): the assembler spec at a one-sheet instance with five
singleton columns. -/
theorem claim7_grid_assembler_witness :
    (0 < 5 ∧ 1 < 5 ∧ 0 < 1
      ∧ ([[[1, 2, 3, 4, 5]], [[6, 7, 8, 9, 10]], [[11, 12, 13, 14, 15]],
          [[16, 17, 18, 19, 20]], [[21, 22, 23, 24, 25]]] :
            List (List (List Int))).length = 5
      ∧ (∀ c ∈ ([[[1, 2, 3, 4, 5]], [[6, 7, 8, 9, 10]], [[11, 12, 13, 14, 15]],
          [[16, 17, 18, 19, 20]], [[21, 22, 23, 24, 25]]] :
            List (List (List Int))), c.length = 1)
      ∧ (∀ x2 : Nat, x2 < 5 →
          ∀ a ∈ ([[[1, 2, 3, 4, 5]], [[6, 7, 8, 9, 10]], [[11, 12, 13, 14, 15]],
            [[16, 17, 18, 19, 20]], [[21, 22, 23, 24, 25]]] :
              List (List (List Int))).getD x2 [],
            a.length = 5 ∧ ∀ v ∈ a,
              v ∈ ([[1, 2, 3, 4, 5], [6, 7, 8, 9, 10], [11, 12, 13, 14, 15],
                [16, 17, 18, 19, 20], [21, 22, 23, 24, 25]] :
                  List (List Int)).getD x2 []))
    ∧ (make_grids [[[1, 2, 3, 4, 5]], [[6, 7, 8, 9, 10]], [[11, 12, 13, 14, 15]],
        [[16, 17, 18, 19, 20]], [[21, 22, 23, 24, 25]]] 1).length = 1
    ∧ ((make_grids [[[1, 2, 3, 4, 5]], [[6, 7, 8, 9, 10]], [[11, 12, 13, 14, 15]],
        [[16, 17, 18, 19, 20]], [[21, 22, 23, 24, 25]]] 1).getD 0
          (Grid.new 5 5)).get 2 2 = 0
    ∧ (¬(0 = 2 ∧ 1 = 2) →
        ((make_grids [[[1, 2, 3, 4, 5]], [[6, 7, 8, 9, 10]], [[11, 12, 13, 14, 15]],
          [[16, 17, 18, 19, 20]], [[21, 22, 23, 24, 25]]] 1).getD 0
            (Grid.new 5 5)).get 0 1
          = ((([[[1, 2, 3, 4, 5]], [[6, 7, 8, 9, 10]], [[11, 12, 13, 14, 15]],
              [[16, 17, 18, 19, 20]], [[21, 22, 23, 24, 25]]] :
                List (List (List Int))).getD 0 []).getD 0 []).getD 1 0)
    ∧ (¬(0 = 2 ∧ 1 = 2) →
        ((make_grids [[[1, 2, 3, 4, 5]], [[6, 7, 8, 9, 10]], [[11, 12, 13, 14, 15]],
          [[16, 17, 18, 19, 20]], [[21, 22, 23, 24, 25]]] 1).getD 0
            (Grid.new 5 5)).get 0 1
          ∈ ([[1, 2, 3, 4, 5], [6, 7, 8, 9, 10], [11, 12, 13, 14, 15],
              [16, 17, 18, 19, 20], [21, 22, 23, 24, 25]] :
                List (List Int)).getD 0 []) :=
  ⟨⟨by decide, by decide, by decide, by decide, by decide, by decide⟩,
    claim7_grid_assembler
      [[[1, 2, 3, 4, 5]], [[6, 7, 8, 9, 10]], [[11, 12, 13, 14, 15]],
        [[16, 17, 18, 19, 20]], [[21, 22, 23, 24, 25]]]
      [[1, 2, 3, 4, 5], [6, 7, 8, 9, 10], [11, 12, 13, 14, 15],
        [16, 17, 18, 19, 20], [21, 22, 23, 24, 25]]
      1 0 0 1 (by decide) (by decide) (by decide) (by decide) (by decide)
      (by decide)⟩

/-- C8 (counterexample): the claim states that the pseudorandom source is
a seedable value passed into the core rather than ambient state; the code
instead derives the seed inside `create_random_number_grids` from the
wall-clock nanoseconds (`seed = nanos & u64::MAX`, lines 258-260), and
that derived seed varies with the ambient clock: already the readings `0`
and `1` yield different seeds. -/
theorem claim8_counterexample :
    chotto_seed 0 = 0 ∧ chotto_seed 1 = 1 ∧ chotto_seed 0 ≠ chotto_seed 1 := by
  refine ⟨by decide, by decide, by decide⟩

/-- C8 (amended): the core seeds its pseudorandom source internally from
the wall clock (made the explicit `nanos_since_epoch` input of the
embedding) instead of taking a seed parameter; given equal derived seeds
— wall-clock readings agreeing modulo `2^64` — and equal sheet counts,
the generation is deterministic: both runs produce identical per-column
accepted-arrangement sequences and identical grids. -/
theorem claim8_seed_determinism (nanos1 nanos2 sheet_count : Nat)
    (hseed : chotto_seed nanos1 = chotto_seed nanos2) :
    create_random_columns_seeded (chotto_seed nanos1) sheet_count
        = create_random_columns_seeded (chotto_seed nanos2) sheet_count
    ∧ create_random_number_grids nanos1 sheet_count
        = create_random_number_grids nanos2 sheet_count := by
  constructor
  · rw [hseed]
  · unfold create_random_number_grids create_random_number_grids_seeded
    rw [hseed]

/-- C8 (witness): the wall-clock readings `2^64` and `0` derive the same
seed, so the corresponding runs coincide. -/
theorem claim8_seed_determinism_witness :
    chotto_seed (2 ^ 64) = chotto_seed 0
    ∧ create_random_columns_seeded (chotto_seed (2 ^ 64)) 1
        = create_random_columns_seeded (chotto_seed 0) 1
    ∧ create_random_number_grids (2 ^ 64) 1 = create_random_number_grids 0 1 :=
  ⟨by decide,
    (claim8_seed_determinism (2 ^ 64) 0 1 (by decide)).1,
    (claim8_seed_determinism (2 ^ 64) 0 1 (by decide)).2⟩

/-- C9: the enumerator fails with `InvalidArgument` exactly when its
contract is violated — the pool is empty, or `k = 0`, or `k` exceeds the
pool size — and for every input satisfying `0 < k ≤ n` it returns a
result (never fails); the failure is the immediate result of the call,
before any sampling can consume it. -/
theorem claim9_invalid_argument {α : Type} [DecidableEq α] (k : Nat)
    (elements : List α) :
    (get_all_possible_arrangements_of_size_k k elements
        = .error .InvalidArgument
      ↔ (elements = [] ∨ k = 0 ∨ k > elements.length))
    ∧ ((0 < k ∧ k ≤ elements.length) →
        ∃ l, get_all_possible_arrangements_of_size_k k elements = .ok l) := by
  constructor
  · rw [arrangements_error_iff]
    constructor
    · intro h
      by_cases he : elements = []
      · exact Or.inl he
      · right
        omega
    · rintro (he | h)
      · rw [he]
        intro hc
        simp only [List.length_nil] at hc
        omega
      · omega
  · intro hvalid
    exact arrangements_ok k elements hvalid.1 hvalid.2

/-- C9 (witness): the contract characterization applied at `k = 1` and
the singleton pool `[1]`. -/
theorem claim9_invalid_argument_witness :
    (0 < 1 ∧ 1 ≤ ([1] : List Int).length)
    ∧ (get_all_possible_arrangements_of_size_k 1 ([1] : List Int)
          = .error .InvalidArgument
        ↔ (([1] : List Int) = [] ∨ 1 = 0 ∨ 1 > ([1] : List Int).length))
    ∧ ((0 < 1 ∧ 1 ≤ ([1] : List Int).length) →
        ∃ l, get_all_possible_arrangements_of_size_k 1 ([1] : List Int)
          = .ok l) :=
  ⟨by decide, (claim9_invalid_argument 1 [1]).1, (claim9_invalid_argument 1 [1]).2⟩

/-- C10: in every grid the generation core produces, the assembly loop
never writes the center cell `(2, 2)`, so it still holds the value `0`
that a freshly constructed `5 × 5` grid is initialized with; every other
cell of the `5 × 5` area holds a nonzero value from the pool of its
column; and `0` is not a member of any of the five pools (which cover
only `1..75`), so the free cell is distinguishable from every number
cell. -/
theorem claim10_free_cell (nanos_since_epoch sheet_count : Nat) :
    (create_random_number_grids nanos_since_epoch sheet_count).all
        chotto_grid_ok = true
    ∧ (chotto_pools.all fun pool => !(pool.contains 0)) = true := by
  refine ⟨?_, by decide⟩
  unfold create_random_number_grids
  exact chotto_grids_ok (chotto_seed nanos_since_epoch) sheet_count

end Chotto
